import Mathlib

/-!
# MailMon: a shallow embedding of `mailmon.go` and `cli/main.go`

Go strings and byte slices are lists of bytes.  Everything the program does
to the outside world (IMAP commands, DKIM verification, log lines, the one
second sleep) and every fetched message it receives is recorded, in program
order, in a trace of `Event`s; the answers of the outside world come from
explicit interface records (`Client`, `Verifier`) that thread a state of
their own.
-/

namespace Mailmon

/-! ## Strings -/

abbrev Byte := UInt8

/-- A Go `string` or `[]byte`: a finite sequence of bytes. -/
abbrev GoString := List Byte

/-- The bytes of an ASCII string literal of the source. -/
def ascii (s : String) : GoString := s.toList.map (fun c => c.toNat.toUInt8)

/-- Carriage return, `'\r'`. -/
def CR : Byte := 13

/-- Line feed, `'\n'`. -/
def LF : Byte := 10

/-- The two bytes `"\r\n"`. -/
def CRLF : GoString := [CR, LF]

/-- Go `strings.Contains(s, substr)`. -/
def stringsContains (s substr : GoString) : Bool := decide (substr <:+: s)

/-- Go `strings.Replace(s, "\n", "\r\n", -1)`: every line feed byte is
replaced by carriage return, line feed. -/
def replaceNewlines : GoString → GoString
  | [] => []
  | c :: cs => if c = LF then CR :: LF :: replaceNewlines cs else c :: replaceNewlines cs

/-- The verb `%d` of Go `fmt` applied to a non-negative integer. -/
def fmtInt (n : Nat) : GoString := ascii (toString n)

/-! ## Connections (`mailmon.go`, lines 26-42 and 188-200) -/

structure SmtpConnection where
  Address : GoString
  Username : GoString
  Password : GoString
deriving DecidableEq, Repr

structure ImapConnection where
  Address : GoString
  Username : GoString
  Password : GoString
deriving DecidableEq, Repr

/-- The struct `TestSuite`; the `*SmtpConnection` pointer is nil in the no-smtp mode. -/
structure TestSuite where
  Sender : GoString
  Recipient : GoString
  SmtpServer : Option SmtpConnection
  ImapServer : ImapConnection
deriving DecidableEq, Repr

/-- The constant `HeaderTrace`, the mail header that identifies the test mail. -/
def HeaderTrace : GoString := ascii "X-MailMon-Trace-ID"

/-- Go `func (s *SmtpConnection) addr() string`:
`fmt.Sprintf("%s:%d", s.Address, 587)` unless the address contains a colon. -/
def SmtpConnection.addr (s : SmtpConnection) : GoString :=
  if stringsContains s.Address (ascii ":") then s.Address
  else s.Address ++ ascii ":" ++ fmtInt 587

/-- Go `func (s *ImapConnection) addr() string`:
`fmt.Sprintf("%s:%d", s.Address, 993)` unless the address contains a colon. -/
def ImapConnection.addr (s : ImapConnection) : GoString :=
  if stringsContains s.Address (ascii ":") then s.Address
  else s.Address ++ ascii ":" ++ fmtInt 993

/-- The SMTP authentication chosen by `func (s *SmtpConnection) auth()`. -/
inductive SmtpAuth where
  | plain (identity username password host : GoString)
deriving DecidableEq, Repr

/-- Go `func (s *SmtpConnection) auth() smtp.Auth`: nil without a username. -/
def SmtpConnection.auth (s : SmtpConnection) : Option SmtpAuth :=
  if s.Username.length = 0 then none
  else some (.plain [] s.Username s.Password (ascii "mail.starkiller.project0.de"))

/-! ## The message (`mailmon.go`, lines 202-213) -/

/-- Go `func newMessage(id, to, from, subject, message string) []byte`. -/
def newMessage (id to_ from_ subject message : GoString) : GoString :=
  -- header
  (ascii "To: " ++ to_ ++ ascii "\r\n")
    ++ (ascii "From: " ++ from_ ++ ascii "\r\n")
    ++ (ascii "Subject: " ++ subject ++ ascii "\r\n")
    ++ (HeaderTrace ++ ascii ": " ++ id ++ ascii "\r\n")
    -- body
    ++ ascii "\r\n"
    ++ replaceNewlines message

/-! ## Library values the poller works with -/

/-- An error value handed back by a library (imap, smtp, dkim, uuid, io). -/
abbrev LibError := String

/-- A message UID (`uint32`); no arithmetic is done on it. -/
abbrev UID := Nat

/-- The type `imap.SeqSet` of go-imap, used here only through `new`,
`AddNum` and `Empty`: the numbers added, without duplicates, in the order of
their first insertion.  The number 0 stands for `*`. -/
structure SeqSet where
  nums : List UID
deriving DecidableEq, Repr

/-- Go `new(imap.SeqSet)`. -/
def SeqSet.new : SeqSet := ⟨[]⟩

/-- Go `func (s *SeqSet) Empty() bool`. -/
def SeqSet.Empty (s : SeqSet) : Bool := s.nums.isEmpty

/-- Go `func (s *SeqSet) AddNum(q ...uint32)`. -/
def SeqSet.AddNum (s : SeqSet) (q : List UID) : SeqSet :=
  q.foldl (fun acc v => if v ∈ acc.nums then acc else ⟨acc.nums ++ [v]⟩) s

/-- The type `imap.SearchCriteria`, of which only the header field is used.
(`Header.Set` of the library also normalises the letter case of the key;
IMAP compares header names without regard to case.) -/
structure SearchCriteria where
  Header : List (GoString × GoString)
deriving DecidableEq, Repr

/-- Go `imap.NewSearchCriteria()`. -/
def NewSearchCriteria : SearchCriteria := ⟨[]⟩

/-- Go `sc.Header.Set(key, value)`. -/
def SearchCriteria.HeaderSet (sc : SearchCriteria) (key value : GoString) : SearchCriteria :=
  ⟨(key, value) :: sc.Header.filter (fun kv => kv.1 ≠ key)⟩

/-- What `ioutil.ReadAll(msg.GetBody(section))` comes to for a fetched
message. -/
inductive BodyRead where
  /-- The message has no such body section: `GetBody` returns nil and
  `ReadAll` of nil panics. -/
  | missing
  /-- The read fails with an error. -/
  | error (e : LibError)
  /-- The read yields the bytes of the body. -/
  | ok (body : GoString)
deriving DecidableEq, Repr

/-- A fetched `*imap.Message`, as far as `WaitForMail` looks at it: its UID
and what reading its body section comes to. -/
structure Message where
  Uid : UID
  body : BodyRead
deriving DecidableEq, Repr

/-- What one `UidFetch` call does as seen by `WaitForMail`: the values sent on
the channel before it is closed (`none` is a nil pointer) and the error the
call returns. -/
structure FetchResult where
  messages : List (Option Message)
  err : Option LibError
deriving DecidableEq, Repr

/-- One result of `dkim.Verify`. -/
structure Verification where
  Domain : GoString
  Err : Option LibError
deriving DecidableEq, Repr

/-- Go `imap.FormatFlagsOp(imap.AddFlags, silent)`. -/
def FormatFlagsOpAdd (silent : Bool) : GoString :=
  if silent then ascii "+FLAGS.SILENT" else ascii "+FLAGS"

/-- The constant `imap.DeletedFlag`. -/
def DeletedFlag : GoString := ascii "\\Deleted"

/-- The IMAP session `*client.Client` over a server state `ι`: every call
returns its result and the next server state.  The fetch always asks for the
whole body and the flags of the messages of the set. -/
structure Client (ι : Type) where
  Login : GoString → GoString → ι → Option LibError × ι
  Select : GoString → Bool → ι → Option LibError × ι
  UidSearch : SearchCriteria → ι → Except LibError (List UID) × ι
  UidFetch : SeqSet → ι → FetchResult × ι
  UidStore : SeqSet → GoString → List GoString → ι → Option LibError × ι
  Expunge : ι → Option LibError × ι

/-- The function `dkim.Verify` over a state `δ` of its own (DNS). -/
structure Verifier (δ : Type) where
  Verify : GoString → δ → Except LibError (List Verification) × δ

/-! ## Logging and the trace of effects -/

/-- Modelled from the spec: the seven levels of the logging library
(logrus, not part of the repository), from 0 (panic) to 6 (trace). -/
inductive Level where
  | PanicLevel | FatalLevel | ErrorLevel | WarnLevel | InfoLevel | DebugLevel | TraceLevel
deriving DecidableEq, Repr

/-- Modelled from the spec: the table `log.AllLevels` of the logging
library, whose index is the numeric level, 0 (panic) to 6 (trace). -/
def AllLevels : List Level :=
  [.PanicLevel, .FatalLevel, .ErrorLevel, .WarnLevel, .InfoLevel, .DebugLevel, .TraceLevel]

/-- The log lines of `mailmon.go`. -/
inductive LogText where
  /-- The line "Wait for message with id %s". -/
  | waitForId (id : GoString)
  /-- The line "Wait for message". -/
  | waitForMessage
  /-- The line "Server didn't returned message". -/
  | nilMessage
  /-- An error value, logged as it is. -/
  | error (e : LibError)
  /-- The line "Valid dkim signature for %s". -/
  | validDkim (domain : GoString)
  /-- The line "Invalid dkim signature for %s: %v". -/
  | invalidDkim (domain : GoString) (e : LibError)
  /-- The line "Cleanup messages with the given id". -/
  | cleanup
  /-- The line "Send message with id %s". -/
  | sendMessage (id : GoString)
deriving DecidableEq, Repr

/-- An effect of the program on the outside world. -/
inductive Event where
  | log (level : Level) (text : LogText)
  /-- The call `time.Sleep(time.Second)`. -/
  | sleep
  | DialTLS (addr : GoString)
  | Login (username password : GoString)
  | Select (name : GoString) (readOnly : Bool)
  | UidSearch (sc : SearchCriteria)
  | UidFetch (seqset : SeqSet)
  | UidStore (seqset : SeqSet) (item : GoString) (flags : List GoString)
  | Expunge
  /-- The receipt of a value from the channel of the fetch (`none` is a nil
  pointer). -/
  | received (msg : Option Message)
  | dkimVerify (body : GoString)
  | SendMail (addr : GoString) (auth : Option SmtpAuth) (sender : GoString)
      (rcpt : List GoString) (msg : GoString)
deriving DecidableEq, Repr

/-- The commands that read or change messages of the mailbox. -/
def Event.isFetchStoreExpunge : Event → Bool
  | .UidFetch _ => true
  | .UidStore _ _ _ => true
  | .Expunge => true
  | _ => false

/-- The commands sent on the IMAP session. -/
def Event.isImap : Event → Bool
  | .Select _ _ => true
  | .UidSearch _ => true
  | .UidFetch _ => true
  | .UidStore _ _ _ => true
  | .Expunge => true
  | _ => false

/-- The IMAP commands of a trace, in order. -/
def imapCommands (t : List Event) : List Event := t.filter Event.isImap

/-- The commands sent on the IMAP session and the receipts of fetched
messages. -/
def Event.isSession : Event → Bool
  | .received _ => true
  | e => e.isImap

/-- The IMAP commands and the receipts of fetched messages of a trace, in
order. -/
def sessionEvents (t : List Event) : List Event := t.filter Event.isSession

/-- The bodies handed to `dkim.Verify` in a trace, in order. -/
def verifiedBodies : List Event → List GoString
  | [] => []
  | .dkimVerify b :: t => b :: verifiedBodies t
  | _ :: t => verifiedBodies t

/-! ## The poller (`mailmon.go`, lines 69-164) -/

/-- The state `WaitForMail` runs in: the server behind `m.Client`, the state
behind `dkim.Verify`, the local variable `seqFound`, and the effects so far. -/
structure State (ι δ : Type) where
  imap : ι
  dkim : δ
  seqFound : SeqSet
  trace : List Event

/-- Record one effect. -/
def State.emit {ι δ : Type} (s : State ι δ) (e : Event) : State ι δ :=
  { s with trace := s.trace ++ [e] }

/-- How a piece of code ends. -/
inductive Outcome where
  /-- Control left the code at its end. -/
  | returned
  /-- The call `m.Log.Fatal` ended the process. -/
  | fatal
  /-- A run-time panic ended the process. -/
  | panic
  /-- The call of `UidFetch` returned an error.  From here on the goroutine,
  which goes to `m.Log.Fatal`, and the consumer, which goes on with what the
  channel delivered, run side by side, and where the consumer is when the
  process ends depends on the schedule: the run is not followed further. -/
  | fetchFailed
  /-- The wait loop is still running after the rounds counted by the fuel. -/
  | running
deriving DecidableEq, Repr

/-- The loop `for _, v := range ver` of lines 136-142. -/
def logVerifications {ι δ : Type} (ver : List Verification) (s : State ι δ) : State ι δ :=
  ver.foldl (fun s v =>
    match v.Err with
    | none => s.emit (.log .InfoLevel (.validDkim v.Domain))
    | some e => s.emit (.log .ErrorLevel (.invalidDkim v.Domain e))) s

/-- The loop `for msg := range messages` of lines 114-146 over the values the
channel delivers.  The test `err != nil` of line 128 reads the `err` of line
121, which is nil there, so only its else branch is live. -/
def consume {ι δ : Type} (V : Verifier δ) : List (Option Message) → State ι δ → Outcome × State ι δ
  | [], s => (.returned, s)
  | none :: _, s => (.fatal, (s.emit (.received none)).emit (.log .FatalLevel .nilMessage))
  | some msg :: rest, s =>
    let s := s.emit (.received (some msg))
    let s := { s with seqFound := s.seqFound.AddNum [msg.Uid] }
    -- read body for multiple usecases
    match msg.body with
    | .missing => (.panic, s)
    | .error e => consume V rest (s.emit (.log .ErrorLevel (.error e)))
    | .ok body =>
      -- check dkim signature
      let s := s.emit (.dkimVerify body)
      let r := V.Verify body s.dkim
      let s := { s with dkim := r.2 }
      match r.1 with
      | .error e => consume V rest (s.emit (.log .ErrorLevel (.error e)))
      | .ok ver => consume V rest (logVerifications ver s)

/-- Lines 98-146 of `WaitForMail`: fetch the messages of the UIDs found and
consume them.  When `UidFetch` returns no error, the goroutine of lines
107-112 has sent the messages and closed the channel and does nothing more,
and the consumer receives them in order.  When `UidFetch` returns an error,
the goroutine and the consumer run on side by side and the run is not
followed (see `Outcome.fetchFailed`); the state is the one at the call. -/
def fetchMessages {ι δ : Type} (C : Client ι) (V : Verifier δ) (uids : List UID)
    (s : State ι δ) : Outcome × State ι δ :=
  let seqset := SeqSet.new.AddNum uids
  let s := s.emit (.UidFetch seqset)
  let f := C.UidFetch seqset s.imap
  let s := { s with imap := f.2 }
  match f.1.err with
  | some _ => (.fetchFailed, s)
  | none => consume V f.1.messages s

/-- One pass through the body of the loop `for seqFound.Empty()` (lines
82-146). -/
def round {ι δ : Type} (C : Client ι) (V : Verifier δ) (id : GoString) (s : State ι δ) :
    Outcome × State ι δ :=
  -- takes some time until it appears at the destination server
  let s := (s.emit (.log .DebugLevel .waitForMessage)).emit .sleep
  -- search for the mail
  let sc := NewSearchCriteria.HeaderSet HeaderTrace id
  let s := s.emit (.UidSearch sc)
  let r := C.UidSearch sc s.imap
  let s := { s with imap := r.2 }
  match r.1 with
  | .error e => (.fatal, s.emit (.log .FatalLevel (.error e)))
  | .ok uids =>
    if uids.length = 0 then (.returned, s)
    else
      -- Get the whole message body
      fetchMessages C V uids s

/-- The loop `for seqFound.Empty()` of lines 81-147; the fuel bounds the
number of rounds. -/
def waitLoop {ι δ : Type} (C : Client ι) (V : Verifier δ) (id : GoString) :
    Nat → State ι δ → Outcome × State ι δ
  | fuel, s =>
    if s.seqFound.Empty then
      match fuel with
      | 0 => (.running, s)
      | n + 1 =>
        match round C V id s with
        | (.returned, s) => waitLoop C V id n s
        | (o, s) => (o, s)
    else (.returned, s)

/-- Go `func (m *MailMon) delete(seqset *imap.SeqSet) error`. -/
def delete {ι δ : Type} (C : Client ι) (seqset : SeqSet) (s : State ι δ) :
    Option LibError × State ι δ :=
  let s := s.emit (.log .DebugLevel .cleanup)
  let item := FormatFlagsOpAdd true
  let flags := [DeletedFlag]
  let s := s.emit (.UidStore seqset item flags)
  let r := C.UidStore seqset item flags s.imap
  let s := { s with imap := r.2 }
  match r.1 with
  | some err => (some err, s)
  | none =>
    let s := s.emit .Expunge
    let r := C.Expunge s.imap
    (r.1, { s with imap := r.2 })

/-- Go `func (m *MailMon) WaitForMail(id string)`; it has no result value,
and the value `delete` returns at line 149 is not used. -/
def WaitForMail {ι δ : Type} (C : Client ι) (V : Verifier δ) (id : GoString) (fuel : Nat)
    (s : State ι δ) : Outcome × State ι δ :=
  let s := s.emit (.log .InfoLevel (.waitForId id))
  -- Select INBOX
  let s := s.emit (.Select (ascii "INBOX") false)
  let r := C.Select (ascii "INBOX") false s.imap
  let s := { s with imap := r.2 }
  match r.1 with
  | some err => (.fatal, s.emit (.log .FatalLevel (.error err)))
  | none =>
    let s := { s with seqFound := SeqSet.new }
    match waitLoop C V id fuel s with
    | (.returned, s) =>
      if !s.seqFound.Empty then (.returned, (delete C s.seqFound s).2)
      else (.returned, s)
    | (o, s) => (o, s)

/-! ## The command line (`cli/main.go`) -/

/-- The flag values of a `*cli.Context`, by flag name. -/
structure Context where
  getString : String → GoString
  getBool : String → Bool
  getInt : String → Int

/-- An error value returned by the program. -/
inductive Error where
  /-- Go `fmt.Errorf("flag is required: %s", a)`. -/
  | flagRequired (a : String)
  /-- Go `fmt.Errorf("Invalid log level")`. -/
  | invalidLogLevel
  /-- An error of a library, passed on. -/
  | lib (e : LibError)
deriving DecidableEq, Repr

/-- Go `func checkRequiredString(c *cli.Context, args ...string) error`. -/
def checkRequiredString (c : Context) : List String → Option Error
  | [] => none
  | a :: args =>
    if (c.getString a).length = 0 then some (.flagRequired a)
    else checkRequiredString c args

/-- How the hook `beforeGlobal` ends. -/
inductive BeforeResult where
  /-- The logger is set to the level and nil is returned. -/
  | setLevel (level : Level)
  /-- An error is returned. -/
  | err (e : Error)
  /-- A run-time panic: index out of range. -/
  | panic
deriving DecidableEq, Repr

/-- Go indexing `xs[i]` with an `int` index: defined for `0 ≤ i < len(xs)`,
a run-time panic otherwise. -/
def goIndex {α : Type} (xs : List α) (i : Int) : Option α :=
  if i < 0 then none else xs[i.toNat]?

/-- The closure `beforeGlobal` of `main` (lines 39-46). -/
def beforeGlobal (c : Context) : BeforeResult :=
  let level := c.getInt "log"
  if level > (AllLevels.length : Int) - 1 then .err .invalidLogLevel
  else
    match goIndex AllLevels level with
    | some l => .setLevel l
    | none => .panic

/-- What lies outside the process for a test run: the TLS dial that yields
the server state, the IMAP session, the SMTP submission `smtp.SendMail`, and
`uuid.NewUUID` (already rendered as a string). -/
structure World (ι : Type) where
  DialTLS : GoString → Except LibError ι
  client : Client ι
  SendMail : GoString → Option SmtpAuth → GoString → List GoString → GoString → ι →
    Option LibError × ι
  NewUUID : Except LibError GoString

/-- Go `func New(logger *log.Logger, suite *TestSuite) (*MailMon, error)`,
with the effects it has. -/
def New {ι δ : Type} (W : World ι) (suite : TestSuite) (d : δ) :
    Except LibError (State ι δ) × List Event :=
  let t := [Event.DialTLS suite.ImapServer.addr]
  match W.DialTLS suite.ImapServer.addr with
  | .error err => (.error err, t)
  | .ok i =>
    let t := t ++ [Event.Login suite.ImapServer.Username suite.ImapServer.Password]
    let r := W.client.Login suite.ImapServer.Username suite.ImapServer.Password i
    match r.1 with
    | some err => (.error err, t)
    | none => (.ok ⟨r.2, d, SeqSet.new, t⟩, t)

/-- Go `func (m *MailMon) SendMessage(id string) error`; the result is `none`
for the nil pointer dereference when the suite has no SMTP server. -/
def SendMessage {ι δ : Type} (W : World ι) (suite : TestSuite) (id : GoString)
    (s : State ι δ) : Option (Option LibError × State ι δ) :=
  let msg := newMessage id suite.Recipient suite.Sender (ascii "MailMon test mail")
    (ascii "This is a test mail by MailMon")
  let s := s.emit (.log .InfoLevel (.sendMessage id))
  match suite.SmtpServer with
  | none => none
  | some smtp =>
    let s := s.emit (.SendMail smtp.addr smtp.auth suite.Sender [suite.Recipient] msg)
    let r := W.SendMail smtp.addr smtp.auth suite.Sender [suite.Recipient] msg s.imap
    some (r.1, { s with imap := r.2 })

/-- How the action of the `test` command ends. -/
inductive ActionResult where
  /-- The action returns nil. -/
  | ok
  /-- The action returns an error. -/
  | err (e : Error)
  /-- The process was ended by `m.Log.Fatal` inside `WaitForMail`. -/
  | fatal
  /-- The wait loop is still running after the rounds counted by the fuel. -/
  | running
  /-- A run-time panic. -/
  | panic
  /-- A fetch inside `WaitForMail` returned an error; the run is not followed
  further (see `Outcome.fetchFailed`). -/
  | fetchFailed
deriving DecidableEq, Repr

/-- The `Action` of the `test` command (lines 100-154), with the effects it
has. -/
def Action {ι δ : Type} (W : World ι) (V : Verifier δ) (d : δ) (fuel : Nat) (c : Context) :
    ActionResult × List Event :=
  match checkRequiredString c ["from", "to", "imap-address", "imap-username"] with
  | some err => (.err err, [])
  | none =>
    let imap : ImapConnection :=
      { Address := c.getString "imap-address"
        Username := c.getString "imap-username"
        Password := c.getString "imap-password" }
    let smtpCheck : Except Error (Option SmtpConnection) :=
      if !c.getBool "no-smtp" then
        match checkRequiredString c ["smtp-address"] with
        | some err => .error err
        | none =>
          .ok (some
            { Address := c.getString "smtp-address"
              Username := c.getString "smtp-username"
              Password := c.getString "smtp-password" })
      else .ok none
    match smtpCheck with
    | .error err => (.err err, [])
    | .ok smtp =>
      let idCheck : Except LibError GoString :=
        if (c.getString "id").length = 0 then W.NewUUID else .ok (c.getString "id")
      match idCheck with
      | .error err => (.err (.lib err), [])
      | .ok id =>
        let suite : TestSuite :=
          { Sender := c.getString "from"
            Recipient := c.getString "to"
            SmtpServer := smtp
            ImapServer := imap }
        match New W suite d with
        | (.error err, t) => (.err (.lib err), t)
        | (.ok mon, _) =>
          let sent : Option (Option LibError × State ι δ) :=
            if smtp.isSome then SendMessage W suite id mon else some (none, mon)
          match sent with
          | none => (.panic, mon.trace)
          | some (some err, mon) => (.err (.lib err), mon.trace)
          | some (none, mon) =>
            -- the call `mon.WaitForMail(id)` and `return nil`
            match WaitForMail W.client V id fuel mon with
            | (.returned, s) => (.ok, s.trace)
            | (.fatal, s) => (.fatal, s.trace)
            | (.panic, s) => (.panic, s.trace)
            | (.fetchFailed, s) => (.fetchFailed, s.trace)
            | (.running, s) => (.running, s.trace)

/-! ## A mailbox server

The server side of the session for the commands the poller sends, after
RFC 3501: a search lists the UIDs of the matching messages, a fetch delivers
the messages of the set, a store of `+FLAGS (\Deleted)` marks them, an expunge
removes every marked message.  In a sequence set the number 0 (`*`) denotes
the largest UID of the mailbox.  This server never fails. -/

/-- A message kept by the server. -/
structure StoredMessage where
  uid : UID
  header : List (GoString × GoString)
  body : GoString
  deleted : Bool
deriving DecidableEq, Repr

/-- The selected mailbox. -/
structure Mailbox where
  msgs : List StoredMessage
deriving DecidableEq, Repr

/-- The largest UID of the mailbox. -/
def Mailbox.maxUid (mb : Mailbox) : UID := mb.msgs.foldl (fun a m => max a m.uid) 0

/-- Membership of a UID in a sequence set, as the server resolves it. -/
def SeqSet.Contains (set : SeqSet) (maxUid u : UID) : Bool :=
  decide (u ∈ set.nums) || (decide (0 ∈ set.nums) && decide (u = maxUid))

/-- The search rule of exact header equality: every header of the criteria
is a header of the message. -/
def carriesHeaders (sc : SearchCriteria) (m : StoredMessage) : Bool :=
  sc.Header.all (fun kv => decide (kv ∈ m.header))

/-- The session with a mailbox server whose search rule is `rule`. -/
def mailboxClient (rule : SearchCriteria → StoredMessage → Bool) : Client Mailbox where
  Login := fun _ _ mb => (none, mb)
  Select := fun _ _ mb => (none, mb)
  UidSearch := fun sc mb => (.ok ((mb.msgs.filter (rule sc)).map (fun m => m.uid)), mb)
  UidFetch := fun set mb =>
    ({ messages := (mb.msgs.filter (fun m => set.Contains mb.maxUid m.uid)).map
          (fun m => some { Uid := m.uid, body := .ok m.body })
       err := none }, mb)
  UidStore := fun set item flags mb =>
    (none,
      if (item = FormatFlagsOpAdd true ∨ item = FormatFlagsOpAdd false) ∧ DeletedFlag ∈ flags then
        ⟨mb.msgs.map (fun m => if set.Contains mb.maxUid m.uid then { m with deleted := true } else m)⟩
      else mb)
  Expunge := fun mb => (none, ⟨mb.msgs.filter (fun m => !m.deleted)⟩)

/-- A scripted session without state, for single runs: the search finds
`uids`, the fetch delivers `fetched`, and store and expunge return the given
errors. -/
def scriptedClient (uids : List UID) (fetched : FetchResult) (storeErr expungeErr : Option LibError) :
    Client Unit where
  Login := fun _ _ u => (none, u)
  Select := fun _ _ u => (none, u)
  UidSearch := fun _ u => (.ok uids, u)
  UidFetch := fun _ u => (fetched, u)
  UidStore := fun _ _ _ u => (storeErr, u)
  Expunge := fun u => (expungeErr, u)

/-- A verifier that reports no signature at all. -/
def unsignedVerifier : Verifier Unit where
  Verify := fun _ u => (.ok [], u)

/-- The byte of the colon. -/
def colon : Byte := 58

/-! ## Notions used to state the theorems -/

/-- How the consumer loop ends on the values a channel delivers: with
`m.Log.Fatal` at a nil pointer, with a panic at a message without body
section, at the close of the channel otherwise. -/
def consumeEnd : List (Option Message) → Outcome
  | [] => .returned
  | none :: _ => .fatal
  | some m :: rest =>
    match m.body with
    | .missing => .panic
    | _ => consumeEnd rest

/-- The UIDs of the messages the consumer loop gets to: those delivered
before the first nil pointer, up to the first message without body section. -/
def deliveredUids : List (Option Message) → List UID
  | [] => []
  | none :: _ => []
  | some m :: rest =>
    match m.body with
    | .missing => [m.Uid]
    | _ => m.Uid :: deliveredUids rest

/-- The receipts of the consumer loop on the values a channel delivers: up
to the first nil pointer or the first message without body section. -/
def receipts : List (Option Message) → List Event
  | [] => []
  | none :: _ => [.received none]
  | some m :: rest =>
    match m.body with
    | .missing => [.received (some m)]
    | _ => .received (some m) :: receipts rest

/-- The effects of `n` rounds that find nothing: the debug line, the sleep
and the search, `n` times. -/
def idleRounds (id : GoString) : Nat → List Event
  | 0 => []
  | n + 1 =>
    [.log .DebugLevel .waitForMessage, .sleep,
      .UidSearch (NewSearchCriteria.HeaderSet HeaderTrace id)] ++ idleRounds id n

/-- The readable bodies among the messages the consumer loop gets to. -/
def deliveredBodies : List (Option Message) → List GoString
  | [] => []
  | none :: _ => []
  | some m :: rest =>
    match m.body with
    | .missing => []
    | .error _ => deliveredBodies rest
    | .ok b => b :: deliveredBodies rest

/-- The messages of the mailbox that the search of the criteria returns. -/
def Mailbox.matching (rule : SearchCriteria → StoredMessage → Bool) (sc : SearchCriteria)
    (mb : Mailbox) : List StoredMessage :=
  mb.msgs.filter (rule sc)

/-- A world for single runs around a scripted session: the dial succeeds,
the submission succeeds, and the generated trace ID is "uuid". -/
def scriptedWorld (C : Client Unit) : World Unit where
  DialTLS := fun _ => .ok ()
  client := C
  SendMail := fun _ _ _ _ _ u => (none, u)
  NewUUID := .ok (ascii "uuid")

/-- A session in which the search finds UID 7, the fetch delivers that message
and the store (`storeErr`) or the expunge (`expungeErr`) may fail. -/
def cleanupClient (storeErr expungeErr : Option LibError) : Client Unit :=
  scriptedClient [7] ⟨[some ⟨7, .ok (ascii "hello")⟩], none⟩ storeErr expungeErr

/-- The flags `--from x --to x --imap-address x --imap-username x --id t
--no-smtp`. -/
def verifyOnlyFlags : Context where
  getString := fun a => if a = "id" then ascii "t" else ascii "x"
  getBool := fun a => decide (a = "no-smtp")
  getInt := fun _ => 4

/-- A mailbox of three messages, two of which carry the trace ID "t". -/
def exampleMailbox : Mailbox :=
  ⟨[⟨3, [(HeaderTrace, ascii "t")], ascii "one", false⟩,
    ⟨4, [(HeaderTrace, ascii "u")], ascii "two", false⟩,
    ⟨9, [(HeaderTrace, ascii "t")], ascii "three", false⟩]⟩

/-- CRLF line endings throughout: every line feed byte is immediately
preceded by a carriage return byte, and every carriage return byte is
immediately followed by a line feed byte. -/
def CRLFOnly (s : GoString) : Prop :=
  (∀ i, s[i]? = some LF → 0 < i ∧ s[i - 1]? = some CR) ∧
  (∀ i, s[i]? = some CR → s[i + 1]? = some LF)

/-- The check of `CRLFOnly` by one pass over the bytes; `prevCR` tells whether
the byte before the rest was a carriage return. -/
def crlfScan : Bool → GoString → Bool
  | prevCR, [] => !prevCR
  | prevCR, c :: cs => (prevCR == decide (c = LF)) && crlfScan (decide (c = CR)) cs

/-- The property `CRLFOnly` for the rest of a string, given whether the byte
before it was a carriage return. -/
def CrlfFrom (prevCR : Bool) (s : GoString) : Prop :=
  (prevCR = true → s.head? = some LF) ∧
  (∀ i, s[i]? = some LF → (i = 0 ∧ prevCR = true) ∨ (0 < i ∧ s[i - 1]? = some CR)) ∧
  (∀ i, s[i]? = some CR → s[i + 1]? = some LF)

/-- The number of positions of `s` at which `pat` occurs. -/
def occurrences (pat : GoString) : GoString → Nat
  | [] => if pat = [] then 1 else 0
  | c :: cs => (if pat <+: c :: cs then 1 else 0) + occurrences pat cs

/-- Go `bytes.Index(s, pat)`: the position of the first occurrence of `pat`
in `s`, `none` (for -1) when there is none. -/
def bytesIndex (pat : GoString) : GoString → Option Nat
  | [] => if pat = [] then some 0 else none
  | c :: cs => if pat <+: c :: cs then some 0 else (bytesIndex pat cs).map (· + 1)

/-- The text of the trace header line, without its line ending. -/
def traceHeaderLine (id : GoString) : GoString := HeaderTrace ++ ascii ": " ++ id

/-- The length of the three header lines that come before the trace header. -/
def traceHeaderOffset (to_ from_ subject : GoString) : Nat :=
  (ascii "To: " ++ to_ ++ ascii "\r\n" ++ (ascii "From: " ++ from_ ++ ascii "\r\n")
    ++ (ascii "Subject: " ++ subject ++ ascii "\r\n")).length

/-! ## Theorems -/

section

variable {ι δ : Type}

/-- Containment of a one-byte string is membership of the byte. -/
theorem stringsContains_singleton (s : GoString) (b : Byte) :
    stringsContains s [b] = decide (b ∈ s) := by
  unfold stringsContains
  congr 1
  apply propext
  constructor
  · rintro ⟨p, q, h⟩
    rw [← h]
    simp
  · intro h
    obtain ⟨p, q, rfl⟩ := List.append_of_mem h
    exact ⟨p, q, by simp⟩

/-- C6: address normalisation. For every address `a`, `SmtpConnection.addr`
returns `a` unchanged when `a` contains a colon and `a ++ ":587"` when it does
not, and `ImapConnection.addr` returns `a` unchanged when `a` contains a colon
and `a ++ ":993"` when it does not (whatever the user names and passwords). -/
theorem addr_normalisation (a u p u2 p2 : GoString) :
    SmtpConnection.addr ⟨a, u, p⟩ = (if colon ∈ a then a else a ++ ascii ":587") ∧
    ImapConnection.addr ⟨a, u2, p2⟩ = (if colon ∈ a then a else a ++ ascii ":993") := by
  have hc : ascii ":" = [colon] := by decide
  have h587 : fmtInt 587 = ascii "587" := by decide
  have h993 : fmtInt 993 = ascii "993" := by decide
  have e587 : ascii ":587" = [colon] ++ ascii "587" := by decide
  have e993 : ascii ":993" = [colon] ++ ascii "993" := by decide
  unfold SmtpConnection.addr ImapConnection.addr
  simp only [hc, h587, h993, e587, e993, stringsContains_singleton, decide_eq_true_eq,
    List.append_assoc]
  exact ⟨trivial, trivial⟩

/-- The hook `beforeGlobal` by cases on the level: above 6 an error, below 0
a panic, otherwise the level of that index. -/
theorem beforeGlobal_cases (c : Context) :
    beforeGlobal c =
      if 6 < c.getInt "log" then .err .invalidLogLevel
      else if c.getInt "log" < 0 then .panic
      else match AllLevels[(c.getInt "log").toNat]? with
        | some l => .setLevel l
        | none => .panic := by
  unfold beforeGlobal goIndex
  have : ((AllLevels.length : Nat) : Int) - 1 = 6 := by decide
  simp only [this, gt_iff_lt]
  split_ifs <;> rfl

/-- C9: the hook `beforeGlobal` at the level -1 (`--log=-1`) neither returns
the error "Invalid log level" nor sets a level: it indexes the level table at
-1 and panics.  At the level 7 it returns the error, at the level 6 it sets
the trace level. -/
theorem beforeGlobal_negative_level_panics :
    beforeGlobal ⟨fun _ => [], fun _ => false, fun _ => -1⟩ = .panic ∧
    beforeGlobal ⟨fun _ => [], fun _ => false, fun _ => 7⟩ = .err .invalidLogLevel ∧
    beforeGlobal ⟨fun _ => [], fun _ => false, fun _ => 6⟩ = .setLevel .TraceLevel := by
  decide

/-- C10: the action of the `test` command returns the error
"flag is required: n" exactly when `n` is the first flag with an empty value
among from, to, imap-address, imap-username and, unless no-smtp is set,
smtp-address; it returns such an error if and only if one of from, to,
imap-address, imap-username is empty, or smtp-address is empty while no-smtp
is not set (smtp-username and smtp-password play no part); and when it
returns that error it has had no effect at all: no connection was
attempted. -/
theorem Action_flagRequired {ι δ : Type} (W : World ι) (V : Verifier δ) (d : δ) (fuel : Nat)
    (c : Context) :
    (∀ n, (Action W V d fuel c).1 = .err (.flagRequired n) ↔
      (["from", "to", "imap-address", "imap-username"] ++
          (if c.getBool "no-smtp" then [] else ["smtp-address"])).find?
        (fun a => decide ((c.getString a).length = 0)) = some n) ∧
    ((∃ n, (Action W V d fuel c).1 = .err (.flagRequired n)) ↔
      (c.getString "from" = [] ∨ c.getString "to" = [] ∨ c.getString "imap-address" = [] ∨
        c.getString "imap-username" = [] ∨
        (c.getString "smtp-address" = [] ∧ c.getBool "no-smtp" = false))) ∧
    (∀ n, (Action W V d fuel c).1 = .err (.flagRequired n) → (Action W V d fuel c).2 = []) := by
  have key : ∀ n : String,
      ((Action W V d fuel c).1 = .err (.flagRequired n) ↔
        (["from", "to", "imap-address", "imap-username"] ++
            (if c.getBool "no-smtp" then [] else ["smtp-address"])).find?
          (fun a => decide ((c.getString a).length = 0)) = some n) ∧
      ((Action W V d fuel c).1 = .err (.flagRequired n) → (Action W V d fuel c).2 = []) := by
    intro n
    unfold Action
    simp only [checkRequiredString, List.length_eq_zero]
    by_cases h1 : c.getString "from" = []
    · simp [h1]
    by_cases h2 : c.getString "to" = []
    · simp [h1, h2]
    by_cases h3 : c.getString "imap-address" = []
    · simp [h1, h2, h3]
    by_cases h4 : c.getString "imap-username" = []
    · simp [h1, h2, h3, h4]
    by_cases h5 : c.getBool "no-smtp" = true
    · simp only [h1, h2, h3, h4, h5]
      simp
      refine ⟨⟨fun h => ?_, fun h => ?_⟩, fun h => ?_⟩
      · exfalso
        revert h
        repeat' split
        all_goals simp
      · simp [h1, h2, h3, h4] at h
      · exfalso
        revert h
        repeat' split
        all_goals simp
    · by_cases h6 : c.getString "smtp-address" = []
      · simp [h1, h2, h3, h4, h5, h6]
      · simp [h1, h2, h3, h4, h5, h6]
        refine ⟨fun h => ?_, fun h => ?_⟩
        · revert h
          repeat' split
          all_goals simp
        · exfalso
          revert h
          repeat' split
          all_goals simp
  refine ⟨fun n => (key n).1, ?_, fun n => (key n).2⟩
  constructor
  · rintro ⟨n, hn⟩
    have h := (key n).1.mp hn
    have hp := List.find?_some h
    have hm := List.mem_of_find?_eq_some h
    simp only [decide_eq_true_eq, List.length_eq_zero] at hp
    by_cases h5 : c.getBool "no-smtp" = true
    · simp only [h5, if_true, List.append_nil, List.mem_cons, List.mem_singleton,
        List.mem_nil_iff, or_false] at hm
      rcases hm with rfl | rfl | rfl | rfl
      · exact Or.inl hp
      · exact Or.inr (Or.inl hp)
      · exact Or.inr (Or.inr (Or.inl hp))
      · exact Or.inr (Or.inr (Or.inr (Or.inl hp)))
    · simp only [h5, List.mem_append, List.mem_cons, List.mem_singleton,
        List.mem_nil_iff, or_false] at hm
      rcases hm with (rfl | rfl | rfl | rfl) | hm
      · exact Or.inl hp
      · exact Or.inr (Or.inl hp)
      · exact Or.inr (Or.inr (Or.inl hp))
      · exact Or.inr (Or.inr (Or.inr (Or.inl hp)))
      · simp only [Bool.false_eq_true, if_false, List.mem_singleton] at hm
        subst hm
        exact Or.inr (Or.inr (Or.inr (Or.inr ⟨hp, by simpa using h5⟩)))
  · intro h
    have hs : ((["from", "to", "imap-address", "imap-username"] ++
          (if c.getBool "no-smtp" then [] else ["smtp-address"])).find?
        (fun a => decide ((c.getString a).length = 0))).isSome = true := by
      rw [List.find?_isSome]
      simp only [decide_eq_true_eq, List.length_eq_zero]
      rcases h with h | h | h | h | ⟨h, h5⟩
      · exact ⟨"from", by simp, h⟩
      · exact ⟨"to", by simp, h⟩
      · exact ⟨"imap-address", by simp, h⟩
      · exact ⟨"imap-username", by simp, h⟩
      · exact ⟨"smtp-address", by simp [h5], h⟩
    obtain ⟨n, hn⟩ := Option.isSome_iff_exists.mp hs
    exact ⟨n, (key n).1.mpr hn⟩

/-! ### The poller -/

/-- Recording an effect leaves the server state alone. -/
@[simp]
theorem emit_imap (s : State ι δ) (e : Event) : (s.emit e).imap = s.imap := rfl
/-- Recording an effect leaves the verifier state alone. -/
@[simp]
theorem emit_dkim (s : State ι δ) (e : Event) : (s.emit e).dkim = s.dkim := rfl
/-- Recording an effect leaves `seqFound` alone. -/
@[simp]
theorem emit_seqFound (s : State ι δ) (e : Event) : (s.emit e).seqFound = s.seqFound := rfl
/-- Recording an effect appends it to the trace. -/
@[simp]
theorem emit_trace (s : State ι δ) (e : Event) : (s.emit e).trace = s.trace ++ [e] := rfl

/-- The IMAP commands of two traces in a row. -/
theorem imapCommands_append (t u : List Event) :
    imapCommands (t ++ u) = imapCommands t ++ imapCommands u := by
  simp [imapCommands]

/-- The empty trace has no IMAP command. -/
theorem imapCommands_nil : imapCommands [] = [] := rfl

/-- The IMAP commands of a trace, by its first effect. -/
theorem imapCommands_cons (e : Event) (t : List Event) :
    imapCommands (e :: t) = if e.isImap then e :: imapCommands t else imapCommands t := by
  simp [imapCommands, List.filter_cons]

/-- The session events of two traces in a row. -/
theorem sessionEvents_append (t u : List Event) :
    sessionEvents (t ++ u) = sessionEvents t ++ sessionEvents u := by
  simp [sessionEvents]

/-- The empty trace has no session event. -/
theorem sessionEvents_nil : sessionEvents [] = [] := rfl

/-- The session events of a trace, by its first effect. -/
theorem sessionEvents_cons (e : Event) (t : List Event) :
    sessionEvents (e :: t) = if e.isSession then e :: sessionEvents t else sessionEvents t := by
  simp [sessionEvents, List.filter_cons]

/-- The verified bodies of two traces in a row. -/
theorem verifiedBodies_append (t u : List Event) :
    verifiedBodies (t ++ u) = verifiedBodies t ++ verifiedBodies u := by
  induction t with
  | nil => rfl
  | cons e t ih => cases e <;> simp [verifiedBodies, ih]

/-- Logging the verification results changes neither the server, the verifier
state nor `seqFound`, and adds no IMAP command, no receipt and no
verification. -/
theorem logVerifications_fields (ver : List Verification) (s : State ι δ) :
    (logVerifications ver s).imap = s.imap ∧ (logVerifications ver s).dkim = s.dkim ∧
    (logVerifications ver s).seqFound = s.seqFound ∧
    imapCommands (logVerifications ver s).trace = imapCommands s.trace ∧
    verifiedBodies (logVerifications ver s).trace = verifiedBodies s.trace ∧
    sessionEvents (logVerifications ver s).trace = sessionEvents s.trace := by
  induction ver generalizing s with
  | nil => simp [logVerifications]
  | cons v ver ih =>
    unfold logVerifications
    rw [List.foldl_cons]
    cases hv : v.Err with
    | none =>
      have := ih (s.emit (.log .InfoLevel (.validDkim v.Domain)))
      unfold logVerifications at this
      simpa [imapCommands_append, imapCommands_cons, imapCommands_nil, verifiedBodies_append,
        verifiedBodies, Event.isImap, sessionEvents_append, sessionEvents_cons,
        sessionEvents_nil, Event.isSession] using this
    | some e =>
      have := ih (s.emit (.log .ErrorLevel (.invalidDkim v.Domain e)))
      unfold logVerifications at this
      simpa [imapCommands_append, imapCommands_cons, imapCommands_nil, verifiedBodies_append,
        verifiedBodies, Event.isImap, sessionEvents_append, sessionEvents_cons,
        sessionEvents_nil, Event.isSession] using this

/-- Adding numbers one after the other is adding them at once. -/
theorem SeqSet.AddNum_cons (s : SeqSet) (u : UID) (q : List UID) :
    (s.AddNum [u]).AddNum q = s.AddNum (u :: q) := rfl

/-- Adding no number changes nothing. -/
theorem SeqSet.AddNum_nil (s : SeqSet) : s.AddNum [] = s := rfl

/-- A log line is no verification. -/
theorem verifiedBodies_cons_log (l : Level) (x : LogText) (t : List Event) :
    verifiedBodies (.log l x :: t) = verifiedBodies t := rfl

/-- A receipt is no verification. -/
theorem verifiedBodies_cons_received (x : Option Message) (t : List Event) :
    verifiedBodies (.received x :: t) = verifiedBodies t := rfl

/-- A call of `dkim.Verify` is a verification of its body. -/
theorem verifiedBodies_cons_verify (b : GoString) (t : List Event) :
    verifiedBodies (.dkimVerify b :: t) = b :: verifiedBodies t := rfl

/-- The empty trace has no verification. -/
theorem verifiedBodies_nil : verifiedBodies [] = [] := rfl

/-- What the consumer loop does, whatever the verifier answers: how it ends
is decided by the delivered values alone, it does not touch the server, it
adds the UIDs of the messages it gets to to `seqFound`, it sends no IMAP
command, it receives the values it gets to, and it hands to `dkim.Verify` the
readable bodies among them. -/
theorem consume_fields (V : Verifier δ) (ms : List (Option Message)) (s : State ι δ) :
    (consume V ms s).1 = consumeEnd ms ∧
    (consume V ms s).2.imap = s.imap ∧
    (consume V ms s).2.seqFound = s.seqFound.AddNum (deliveredUids ms) ∧
    imapCommands (consume V ms s).2.trace = imapCommands s.trace ∧
    verifiedBodies (consume V ms s).2.trace = verifiedBodies s.trace ++ deliveredBodies ms ∧
    sessionEvents (consume V ms s).2.trace = sessionEvents s.trace ++ receipts ms := by
  induction ms generalizing s with
  | nil => simp [consume, consumeEnd, deliveredUids, deliveredBodies, receipts, SeqSet.AddNum]
  | cons m ms ih =>
    cases m with
    | none =>
      simp [consume, consumeEnd, deliveredUids, deliveredBodies, receipts, SeqSet.AddNum,
        imapCommands_append, imapCommands_cons, imapCommands_nil, Event.isImap,
        sessionEvents_append, sessionEvents_cons, sessionEvents_nil, Event.isSession,
        verifiedBodies_append, verifiedBodies_cons_log, verifiedBodies_cons_received,
        verifiedBodies_nil]
    | some msg =>
      rw [consume]
      cases hb : msg.body with
      | missing =>
        simp [consumeEnd, deliveredUids, deliveredBodies, receipts, hb,
          imapCommands_append, imapCommands_cons, imapCommands_nil, Event.isImap,
          sessionEvents_append, sessionEvents_cons, sessionEvents_nil, Event.isSession,
          verifiedBodies_append, verifiedBodies_cons_log, verifiedBodies_cons_received,
          verifiedBodies_nil]
      | error e =>
        simp only
        obtain ⟨h1, h2, h3, h4, h5, h6⟩ := ih
          ({ s.emit (.received (some msg)) with
            seqFound := (s.emit (.received (some msg))).seqFound.AddNum [msg.Uid] }.emit
              (.log .ErrorLevel (.error e)))
        rw [h1, h2, h3, h4, h5, h6]
        simp [consumeEnd, deliveredUids, deliveredBodies, receipts, hb, SeqSet.AddNum_cons,
          imapCommands_append, imapCommands_cons, imapCommands_nil, Event.isImap,
          sessionEvents_append, sessionEvents_cons, sessionEvents_nil, Event.isSession,
          verifiedBodies_append, verifiedBodies_cons_log, verifiedBodies_cons_received,
          verifiedBodies_nil]
      | ok body =>
        simp only
        split
        · rename_i e he
          rw [(ih _).1, (ih _).2.1, (ih _).2.2.1, (ih _).2.2.2.1, (ih _).2.2.2.2.1,
            (ih _).2.2.2.2.2]
          simp [consumeEnd, deliveredUids, deliveredBodies, receipts, hb, SeqSet.AddNum_cons,
            imapCommands_append, imapCommands_cons, imapCommands_nil, Event.isImap,
            sessionEvents_append, sessionEvents_cons, sessionEvents_nil, Event.isSession,
            verifiedBodies_append, verifiedBodies_cons_log, verifiedBodies_cons_received,
            verifiedBodies_cons_verify, verifiedBodies_nil]
        · rename_i ver hv
          rw [(ih _).1, (ih _).2.1, (ih _).2.2.1, (ih _).2.2.2.1, (ih _).2.2.2.2.1,
            (ih _).2.2.2.2.2]
          rw [(logVerifications_fields ver _).1, (logVerifications_fields ver _).2.2.1,
            (logVerifications_fields ver _).2.2.2.1, (logVerifications_fields ver _).2.2.2.2.1,
            (logVerifications_fields ver _).2.2.2.2.2]
          simp [consumeEnd, deliveredUids, deliveredBodies, receipts, hb, SeqSet.AddNum_cons,
            imapCommands_append, imapCommands_cons, imapCommands_nil, Event.isImap,
            sessionEvents_append, sessionEvents_cons, sessionEvents_nil, Event.isSession,
            verifiedBodies_append, verifiedBodies_cons_log, verifiedBodies_cons_received,
            verifiedBodies_cons_verify, verifiedBodies_nil]

/-- What the fetch of one round does, whatever the verifier answers. -/
theorem fetchMessages_fields (C : Client ι) (V : Verifier δ) (uids : List UID) (s : State ι δ) :
    (fetchMessages C V uids s).1 =
      (if (C.UidFetch (SeqSet.new.AddNum uids) s.imap).1.err.isSome then .fetchFailed
      else consumeEnd (C.UidFetch (SeqSet.new.AddNum uids) s.imap).1.messages) ∧
    (fetchMessages C V uids s).2.imap = (C.UidFetch (SeqSet.new.AddNum uids) s.imap).2 ∧
    (fetchMessages C V uids s).2.seqFound =
      (if (C.UidFetch (SeqSet.new.AddNum uids) s.imap).1.err.isSome then s.seqFound
      else s.seqFound.AddNum
        (deliveredUids (C.UidFetch (SeqSet.new.AddNum uids) s.imap).1.messages)) ∧
    imapCommands (fetchMessages C V uids s).2.trace =
      imapCommands s.trace ++ [.UidFetch (SeqSet.new.AddNum uids)] := by
  unfold fetchMessages
  simp only [emit_imap]
  cases he : (C.UidFetch (SeqSet.new.AddNum uids) s.imap).1.err with
  | some e =>
    simp [imapCommands_append, imapCommands_cons, imapCommands_nil, Event.isImap]
  | none =>
    simp only
    obtain ⟨c1, c2, c3, c4, _, _⟩ := consume_fields V
      (C.UidFetch (SeqSet.new.AddNum uids) s.imap).1.messages
      { (s.emit (.UidFetch (SeqSet.new.AddNum uids))) with
        imap := (C.UidFetch (SeqSet.new.AddNum uids) s.imap).2 }
    rw [c1, c2, c3, c4]
    simp [imapCommands_append, imapCommands_cons, imapCommands_nil, Event.isImap]

/-- The fetch of one round, when it returns no error: the bodies handed to
`dkim.Verify` and the session events. -/
theorem fetchMessages_ok (C : Client ι) (V : Verifier δ) (uids : List UID) (s : State ι δ)
    (he : (C.UidFetch (SeqSet.new.AddNum uids) s.imap).1.err = none) :
    verifiedBodies (fetchMessages C V uids s).2.trace =
      verifiedBodies s.trace ++
        deliveredBodies (C.UidFetch (SeqSet.new.AddNum uids) s.imap).1.messages ∧
    sessionEvents (fetchMessages C V uids s).2.trace =
      sessionEvents s.trace ++ [.UidFetch (SeqSet.new.AddNum uids)] ++
        receipts (C.UidFetch (SeqSet.new.AddNum uids) s.imap).1.messages := by
  unfold fetchMessages
  simp only [emit_imap, he]
  obtain ⟨_, _, _, _, c5, c6⟩ := consume_fields V
    (C.UidFetch (SeqSet.new.AddNum uids) s.imap).1.messages
    { (s.emit (.UidFetch (SeqSet.new.AddNum uids))) with
      imap := (C.UidFetch (SeqSet.new.AddNum uids) s.imap).2 }
  rw [c5, c6]
  simp [verifiedBodies_append, verifiedBodies, sessionEvents_append, sessionEvents_cons,
    sessionEvents_nil, Event.isSession, Event.isImap]

/-- Adding pairwise different new numbers appends them. -/
theorem SeqSet.AddNum_nodup (s : SeqSet) (q : List UID) (h : (s.nums ++ q).Nodup) :
    s.AddNum q = ⟨s.nums ++ q⟩ := by
  induction q generalizing s with
  | nil => simp [SeqSet.AddNum]
  | cons v q ih =>
    rw [← SeqSet.AddNum_cons]
    have hv : v ∉ s.nums := by
      intro hv
      have := List.nodup_append.mp h
      exact this.2.2 hv (List.mem_cons_self v q)
    have e : s.AddNum [v] = ⟨s.nums ++ [v]⟩ := by
      simp [SeqSet.AddNum, hv]
    rw [e, ih]
    · simp
    · simpa using h

/-- The wait loop with an empty `seqFound` and fuel left runs one round. -/
theorem waitLoop_succ (C : Client ι) (V : Verifier δ) (id : GoString) (n : Nat) (s : State ι δ)
    (hs : s.seqFound.Empty = true) :
    waitLoop C V id (n + 1) s =
      match round C V id s with
      | (.returned, s) => waitLoop C V id n s
      | (o, s) => (o, s) := by
  rw [waitLoop]
  simp only [hs, if_true]

/-- The wait loop with a non-empty `seqFound` is left at once. -/
theorem waitLoop_found (C : Client ι) (V : Verifier δ) (id : GoString) (n : Nat) (s : State ι δ)
    (hs : s.seqFound.Empty = false) : waitLoop C V id n s = (.returned, s) := by
  cases n <;> simp [waitLoop, hs]

/-- In a valid mailbox the sequence set of the UIDs found by a search holds
the UID of a message exactly when the search rule accepts the message. -/
theorem mailbox_fetch_eq (rule : SearchCriteria → StoredMessage → Bool) (sc : SearchCriteria)
    (mb : Mailbox) (hpos : ∀ m ∈ mb.msgs, 0 < m.uid)
    (hnodup : (mb.msgs.map (fun m => m.uid)).Nodup) (m : StoredMessage) (hm : m ∈ mb.msgs) :
    SeqSet.Contains ⟨(mb.matching rule sc).map (fun m => m.uid)⟩ mb.maxUid m.uid = rule sc m := by
  have h0 : (0 : UID) ∉ (mb.matching rule sc).map (fun m => m.uid) := by
    intro h
    obtain ⟨x, hx, hx0⟩ := List.mem_map.mp h
    have h1 := hpos x (List.mem_of_mem_filter hx)
    have h2 : x.uid = 0 := hx0
    rw [h2] at h1
    exact Nat.lt_irrefl 0 h1
  unfold SeqSet.Contains
  simp only [h0, decide_False, Bool.false_and, Bool.or_false]
  by_cases hr : rule sc m = true
  · rw [hr]
    simp only [decide_eq_true_eq]
    exact List.mem_map.mpr ⟨m, List.mem_filter.mpr ⟨hm, hr⟩, rfl⟩
  · have : rule sc m = false := by simpa using hr
    rw [this]
    simp only [decide_eq_false_iff_not]
    intro h
    obtain ⟨x, hx, hxm⟩ := List.mem_map.mp h
    have hx' := List.mem_filter.mp hx
    have := List.inj_on_of_nodup_map hnodup hx'.1 hm hxm
    subst this
    exact hr hx'.2

/-- A round whose search finds UIDs goes on to fetch them. -/
theorem round_found (C : Client ι) (V : Verifier δ) (id : GoString) (s : State ι δ)
    (uids : List UID)
    (hsearch : (C.UidSearch (NewSearchCriteria.HeaderSet HeaderTrace id) s.imap).1 = .ok uids)
    (hne : uids ≠ []) :
    round C V id s =
      fetchMessages C V uids
        { (((s.emit (.log .DebugLevel .waitForMessage)).emit .sleep).emit
            (.UidSearch (NewSearchCriteria.HeaderSet HeaderTrace id))) with
          imap := (C.UidSearch (NewSearchCriteria.HeaderSet HeaderTrace id) s.imap).2 } := by
  have hlen : ¬ uids.length = 0 := by simpa using hne
  unfold round
  simp only [emit_imap, hsearch, hlen, if_false]

/-- The run of `WaitForMail` after a successful select. -/
theorem WaitForMail_selected (C : Client ι) (V : Verifier δ) (id : GoString) (fuel : Nat)
    (s : State ι δ) (hsel : (C.Select (ascii "INBOX") false s.imap).1 = none) :
    WaitForMail C V id fuel s =
      match waitLoop C V id fuel
        { ((s.emit (.log .InfoLevel (.waitForId id))).emit (.Select (ascii "INBOX") false)) with
          imap := (C.Select (ascii "INBOX") false s.imap).2
          seqFound := SeqSet.new } with
      | (.returned, s) =>
        if !s.seqFound.Empty then (.returned, (delete C s.seqFound s).2) else (.returned, s)
      | (o, s) => (o, s) := by
  unfold WaitForMail
  simp only [emit_imap, hsel]

/-- The cleanup after a successful store: the expunge follows. -/
theorem delete_ok (C : Client ι) (set : SeqSet) (s : State ι δ)
    (hstore : (C.UidStore set (FormatFlagsOpAdd true) [DeletedFlag] s.imap).1 = none) :
    (delete C set s).1 =
      (C.Expunge (C.UidStore set (FormatFlagsOpAdd true) [DeletedFlag] s.imap).2).1 ∧
    (delete C set s).2.imap =
      (C.Expunge (C.UidStore set (FormatFlagsOpAdd true) [DeletedFlag] s.imap).2).2 ∧
    (delete C set s).2.trace =
      s.trace ++ [.log .DebugLevel .cleanup, .UidStore set (FormatFlagsOpAdd true) [DeletedFlag],
        .Expunge] := by
  unfold delete
  simp [hstore]

/-- The mailbox server accepts the select. -/
theorem mailboxClient_Select (rule : SearchCriteria → StoredMessage → Bool) (n : GoString)
    (r : Bool) (mb : Mailbox) : (mailboxClient rule).Select n r mb = (none, mb) := rfl

/-- The mailbox server lists the UIDs of the matching messages. -/
theorem mailboxClient_UidSearch (rule : SearchCriteria → StoredMessage → Bool)
    (sc : SearchCriteria) (mb : Mailbox) :
    (mailboxClient rule).UidSearch sc mb = (.ok ((mb.matching rule sc).map (fun m => m.uid)), mb) :=
  rfl

/-- The mailbox server delivers the messages of the set. -/
theorem mailboxClient_UidFetch (rule : SearchCriteria → StoredMessage → Bool)
    (set : SeqSet) (mb : Mailbox) :
    (mailboxClient rule).UidFetch set mb =
      ({ messages := (mb.msgs.filter (fun m => set.Contains mb.maxUid m.uid)).map
            (fun m => some { Uid := m.uid, body := .ok m.body })
         err := none }, mb) := rfl

/-- The mailbox server marks the messages of the set as deleted. -/
theorem mailboxClient_UidStore (rule : SearchCriteria → StoredMessage → Bool)
    (set : SeqSet) (mb : Mailbox) :
    (mailboxClient rule).UidStore set (FormatFlagsOpAdd true) [DeletedFlag] mb =
      (none, ⟨mb.msgs.map (fun m =>
        if set.Contains mb.maxUid m.uid then { m with deleted := true } else m)⟩) := by
  simp [mailboxClient]

/-- The mailbox server removes the messages marked as deleted. -/
theorem mailboxClient_Expunge (rule : SearchCriteria → StoredMessage → Bool) (mb : Mailbox) :
    (mailboxClient rule).Expunge mb = (none, ⟨mb.msgs.filter (fun m => !m.deleted)⟩) := rfl

/-- The UIDs delivered by a fetch of the mailbox server. -/
theorem deliveredUids_stored (l : List StoredMessage) :
    deliveredUids (l.map (fun m => some { Uid := m.uid, body := .ok m.body })) =
      l.map (fun m => m.uid) := by
  induction l with
  | nil => rfl
  | cons m l ih => simp [deliveredUids, ih]

/-- The consumer loop gets to the end of what a fetch of the mailbox server
delivers. -/
theorem consumeEnd_stored (l : List StoredMessage) :
    consumeEnd (l.map (fun m => some { Uid := m.uid, body := .ok m.body })) = .returned := by
  induction l with
  | nil => rfl
  | cons m l ih => simp [consumeEnd, ih]

/-- The bodies delivered by a fetch of the mailbox server. -/
theorem deliveredBodies_stored (l : List StoredMessage) :
    deliveredBodies (l.map (fun m => some { Uid := m.uid, body := .ok m.body })) =
      l.map (fun m => m.body) := by
  induction l with
  | nil => rfl
  | cons m l ih => simp [deliveredBodies, ih]

/-- C1: in a mailbox (valid: UIDs positive and pairwise different) whose
server answers the search for the trace header with the non-empty list `S` of
messages, and where search, fetch, store and expunge succeed, `WaitForMail`
returns in its first round (whatever fuel is left): the IMAP commands sent
are the select, one search, one fetch of the UIDs of `S`, one store of
`\Deleted` on exactly the UIDs of `S` and one expunge, in this order; the
bodies handed to `dkim.Verify` are the bodies of `S`; and afterwards the
mailbox holds the messages that were neither marked deleted before nor in
`S`, so that no message of `S` is left. -/
theorem WaitForMail_found (rule : SearchCriteria → StoredMessage → Bool) (V : Verifier δ)
    (d : δ) (mb : Mailbox) (id : GoString) (fuel : Nat)
    (hpos : ∀ m ∈ mb.msgs, 0 < m.uid)
    (hnodup : (mb.msgs.map (fun m => m.uid)).Nodup)
    (hS : mb.matching rule (NewSearchCriteria.HeaderSet HeaderTrace id) ≠ []) :
    (WaitForMail (mailboxClient rule) V id (fuel + 1) ⟨mb, d, SeqSet.new, []⟩).1 = .returned ∧
    imapCommands (WaitForMail (mailboxClient rule) V id (fuel + 1) ⟨mb, d, SeqSet.new, []⟩).2.trace =
      [.Select (ascii "INBOX") false,
        .UidSearch (NewSearchCriteria.HeaderSet HeaderTrace id),
        .UidFetch ⟨(mb.matching rule (NewSearchCriteria.HeaderSet HeaderTrace id)).map
          (fun m => m.uid)⟩,
        .UidStore ⟨(mb.matching rule (NewSearchCriteria.HeaderSet HeaderTrace id)).map
          (fun m => m.uid)⟩ (ascii "+FLAGS.SILENT") [ascii "\\Deleted"],
        .Expunge] ∧
    verifiedBodies
        (WaitForMail (mailboxClient rule) V id (fuel + 1) ⟨mb, d, SeqSet.new, []⟩).2.trace =
      (mb.matching rule (NewSearchCriteria.HeaderSet HeaderTrace id)).map (fun m => m.body) ∧
    (WaitForMail (mailboxClient rule) V id (fuel + 1) ⟨mb, d, SeqSet.new, []⟩).2.imap.msgs =
      mb.msgs.filter (fun m =>
        !m.deleted && !rule (NewSearchCriteria.HeaderSet HeaderTrace id) m) ∧
    (∀ m ∈ mb.matching rule (NewSearchCriteria.HeaderSet HeaderTrace id),
      m ∉ (WaitForMail (mailboxClient rule) V id (fuel + 1)
        ⟨mb, d, SeqSet.new, []⟩).2.imap.msgs) := by
  generalize hsc : NewSearchCriteria.HeaderSet HeaderTrace id = sc at hS ⊢
  have hne : (mb.matching rule sc).map (fun m => m.uid) ≠ [] := by simpa using hS
  have hSn : ((mb.matching rule sc).map (fun m => m.uid)).Nodup := by
    unfold Mailbox.matching
    exact (List.filter_sublist mb.msgs).map _ |>.nodup hnodup
  have hadd : SeqSet.new.AddNum ((mb.matching rule sc).map (fun m => m.uid)) =
      ⟨(mb.matching rule sc).map (fun m => m.uid)⟩ := by
    rw [SeqSet.AddNum_nodup]
    · rfl
    · simpa [SeqSet.new] using hSn
  have hcontains : ∀ m ∈ mb.msgs,
      SeqSet.Contains ⟨(mb.matching rule sc).map (fun m => m.uid)⟩ mb.maxUid m.uid = rule sc m :=
    fun m hm => mailbox_fetch_eq rule sc mb hpos hnodup m hm
  have hfilter : mb.msgs.filter (fun m =>
      SeqSet.Contains ⟨(mb.matching rule sc).map (fun m => m.uid)⟩ mb.maxUid m.uid) =
      mb.matching rule sc := by
    unfold Mailbox.matching
    exact List.filter_congr hcontains
  rw [WaitForMail_selected _ _ _ _ _ (by rfl)]
  rw [waitLoop_succ _ _ _ _ _ (by rfl)]
  rw [round_found _ _ _ _ ((mb.matching rule sc).map (fun m => m.uid))
    (by simp only [hsc]; rfl) hne]
  simp only [hsc, emit_imap, mailboxClient_Select, mailboxClient_UidSearch]
  obtain ⟨f1, f2, f3, f4⟩ := fetchMessages_fields (mailboxClient rule) V
    ((mb.matching rule sc).map (fun m => m.uid))
    { (((({ ((State.mk mb d SeqSet.new []).emit (.log .InfoLevel (.waitForId id))).emit
              (.Select (ascii "INBOX") false) with
            imap := mb, seqFound := SeqSet.new } : State Mailbox δ).emit
          (.log .DebugLevel .waitForMessage)).emit .sleep).emit (.UidSearch sc)) with imap := mb }
  obtain ⟨f5, _⟩ := fetchMessages_ok (mailboxClient rule) V
    ((mb.matching rule sc).map (fun m => m.uid))
    { (((({ ((State.mk mb d SeqSet.new []).emit (.log .InfoLevel (.waitForId id))).emit
              (.Select (ascii "INBOX") false) with
            imap := mb, seqFound := SeqSet.new } : State Mailbox δ).emit
          (.log .DebugLevel .waitForMessage)).emit .sleep).emit (.UidSearch sc)) with imap := mb }
    (by rfl)
  generalize fetchMessages (mailboxClient rule) V _ _ = r at f1 f2 f3 f4 f5 ⊢
  obtain ⟨o, t⟩ := r
  simp only [hadd, mailboxClient_UidFetch, hfilter, deliveredUids_stored, deliveredBodies_stored,
    consumeEnd_stored, Option.isSome_none, Bool.false_eq_true, if_false, emit_seqFound, emit_trace, List.all_map, List.nil_append, List.append_assoc,
    List.singleton_append, imapCommands_cons, imapCommands_nil, Event.isImap,
    verifiedBodies_cons_log, verifiedBodies_nil] at f1 f2 f3 f4 f5
  subst f1
  have hE : t.seqFound.Empty = false := by
    rw [f3]
    cases hl : (mb.matching rule sc).map (fun m => m.uid) with
    | nil => exact absurd hl hne
    | cons a l => rfl
  simp only [waitLoop_found _ _ _ _ _ hE, hE, Bool.not_false, if_true]
  obtain ⟨_, g2, g3⟩ := delete_ok (mailboxClient rule) t.seqFound t
    (by rw [f2, f3, mailboxClient_UidStore])
  have hfinal : (delete (mailboxClient rule) t.seqFound t).2.imap.msgs =
      mb.msgs.filter (fun m => !m.deleted && !rule sc m) := by
    rw [g2, f2, f3, mailboxClient_UidStore, mailboxClient_Expunge]
    simp only [List.filter_map]
    have key : ∀ l : List StoredMessage, (∀ m ∈ l,
        SeqSet.Contains ⟨(mb.matching rule sc).map (fun m => m.uid)⟩ mb.maxUid m.uid =
          rule sc m) →
        List.map (fun m =>
            if SeqSet.Contains ⟨(mb.matching rule sc).map (fun m => m.uid)⟩ mb.maxUid m.uid = true
            then { m with deleted := true } else m)
          (List.filter ((fun m => !m.deleted) ∘ fun m =>
            if SeqSet.Contains ⟨(mb.matching rule sc).map (fun m => m.uid)⟩ mb.maxUid m.uid = true
            then { m with deleted := true } else m) l) =
        List.filter (fun m => !m.deleted && !rule sc m) l := by
      intro l hl
      induction l with
      | nil => rfl
      | cons m l ih =>
        have hm := hl m (List.mem_cons_self m l)
        have ih' := ih (fun x hx => hl x (List.mem_cons_of_mem m hx))
        simp only [List.filter_cons, Function.comp_apply, hm]
        cases hr : rule sc m
        · cases hd : m.deleted
          · simp [hd, ih', hm, hr]
          · simp [hd, ih', hm, hr]
        · simp [ih', hm, hr]
    exact key mb.msgs hcontains
  refine ⟨trivial, ?_, ?_, hfinal, ?_⟩
  · rw [g3, imapCommands_append, f4, f3]
    rfl
  · rw [g3, verifiedBodies_append, f5]
    simp [verifiedBodies_append, verifiedBodies, verifiedBodies_cons_log]
  · intro x hx hmem
    rw [hfinal] at hmem
    have h1 := (List.mem_filter.mp hmem).2
    have h2 : rule sc x = true := (List.mem_filter.mp hx).2
    simp [h2] at h1

/-- The theorem `WaitForMail_found` at a mailbox of three messages, two of
which carry the trace ID. -/
theorem WaitForMail_found_witness :
    (∀ m ∈ exampleMailbox.msgs, 0 < m.uid) ∧
    (exampleMailbox.msgs.map (fun m => m.uid)).Nodup ∧
    exampleMailbox.matching carriesHeaders
      (NewSearchCriteria.HeaderSet HeaderTrace (ascii "t")) ≠ [] ∧
    (WaitForMail (mailboxClient carriesHeaders) unsignedVerifier (ascii "t") (0 + 1)
      ⟨exampleMailbox, (), SeqSet.new, []⟩).1 = .returned ∧
    (∀ m ∈ exampleMailbox.matching carriesHeaders
        (NewSearchCriteria.HeaderSet HeaderTrace (ascii "t")),
      m ∉ (WaitForMail (mailboxClient carriesHeaders) unsignedVerifier (ascii "t") (0 + 1)
        ⟨exampleMailbox, (), SeqSet.new, []⟩).2.imap.msgs) :=
  ⟨by decide, by decide, by decide,
    (WaitForMail_found carriesHeaders unsignedVerifier () exampleMailbox (ascii "t") 0
      (by decide) (by decide) (by decide)).1,
    (WaitForMail_found carriesHeaders unsignedVerifier () exampleMailbox (ascii "t") 0
      (by decide) (by decide) (by decide)).2.2.2.2⟩


/-- Rounds that find nothing send no fetch, store or expunge. -/
theorem idleRounds_quiet (id : GoString) (n : Nat) :
    ∀ e ∈ idleRounds id n, e.isFetchStoreExpunge = false := by
  induction n with
  | zero => simp [idleRounds]
  | succ n ih =>
    intro e he
    simp only [idleRounds, List.cons_append, List.nil_append, List.mem_cons] at he
    rcases he with rfl | rfl | rfl | he
    · rfl
    · rfl
    · rfl
    · exact ih e he

/-- A round whose search finds nothing only logs, sleeps and searches. -/
theorem round_idle (C : Client ι) (V : Verifier δ) (id : GoString) (s : State ι δ)
    (hempty : (C.UidSearch (NewSearchCriteria.HeaderSet HeaderTrace id) s.imap).1 = .ok []) :
    round C V id s =
      (.returned,
        { s with
          imap := (C.UidSearch (NewSearchCriteria.HeaderSet HeaderTrace id) s.imap).2
          trace := s.trace ++ idleRounds id 1 }) := by
  unfold round
  simp [hempty, idleRounds, State.emit]

/-- The wait loop while every search finds nothing. -/
theorem waitLoop_idle (C : Client ι) (V : Verifier δ) (id : GoString)
    (hempty : ∀ sc i, (C.UidSearch sc i).1 = .ok []) (n : Nat) (s : State ι δ)
    (hs : s.seqFound.Empty = true) :
    (waitLoop C V id n s).1 = .running ∧ (waitLoop C V id n s).2.seqFound.Empty = true ∧
      (waitLoop C V id n s).2.trace = s.trace ++ idleRounds id n := by
  induction n generalizing s with
  | zero =>
    unfold waitLoop
    simp [hs, idleRounds]
  | succ n ih =>
    unfold waitLoop
    simp only [hs, if_true]
    rw [round_idle C V id s (hempty _ _)]
    simp only
    have := ih { s with
          imap := (C.UidSearch (NewSearchCriteria.HeaderSet HeaderTrace id) s.imap).2
          trace := s.trace ++ idleRounds id 1 } hs
    refine ⟨this.1, this.2.1, ?_⟩
    rw [this.2.2]
    simp [idleRounds]

/-- C2: when every search returns an empty UID list without error, the wait
loop entered with an empty FoundSet is still running after `n` rounds, for
every `n`: the FoundSet is still empty (the loop condition holds), and the
effects of these rounds are `n` times the debug line, the sleep and the
search, none of which is a fetch, a store or an expunge.  So is `WaitForMail`
as a whole once its select has succeeded. -/
theorem WaitForMail_never_found (C : Client ι) (V : Verifier δ) (id : GoString)
    (hempty : ∀ sc i, (C.UidSearch sc i).1 = .ok []) (n : Nat) (s : State ι δ)
    (hs : s.seqFound.Empty = true) :
    (waitLoop C V id n s).1 = .running ∧
    (waitLoop C V id n s).2.seqFound.Empty = true ∧
    (waitLoop C V id n s).2.trace = s.trace ++ idleRounds id n ∧
    (∀ e ∈ idleRounds id n, e.isFetchStoreExpunge = false) ∧
    ((C.Select (ascii "INBOX") false s.imap).1 = none →
      (WaitForMail C V id n s).1 = .running ∧
      (WaitForMail C V id n s).2.trace =
        s.trace ++ [.log .InfoLevel (.waitForId id), .Select (ascii "INBOX") false] ++
          idleRounds id n) := by
  obtain ⟨h1, h2, h3⟩ := waitLoop_idle C V id hempty n s hs
  refine ⟨h1, h2, h3, idleRounds_quiet id n, fun hsel => ?_⟩
  unfold WaitForMail
  simp only [emit_imap, hsel]
  obtain ⟨g1, g2, g3⟩ := waitLoop_idle C V id hempty n
    ({ ({ ((s.emit (.log .InfoLevel (.waitForId id))).emit (.Select (ascii "INBOX") false)) with
              imap := (C.Select (ascii "INBOX") false s.imap).2 }) with seqFound := SeqSet.new } :
          State ι δ) (by rfl)
  generalize waitLoop C V id n _ = x at g1 g2 g3 ⊢
  obtain ⟨o, t⟩ := x
  simp only at g1 g2 g3
  subst g1
  simp [g3]

/-- The theorem `WaitForMail_never_found` at a session whose searches find
nothing, after three rounds. -/
theorem WaitForMail_never_found_witness :
    (∀ sc i, ((scriptedClient [] ⟨[], none⟩ none none).UidSearch sc i).1 = .ok []) ∧
    (⟨(), (), SeqSet.new, []⟩ : State Unit Unit).seqFound.Empty = true ∧
    (waitLoop (scriptedClient [] ⟨[], none⟩ none none) unsignedVerifier (ascii "t") 3
        ⟨(), (), SeqSet.new, []⟩).1 = .running ∧
    (waitLoop (scriptedClient [] ⟨[], none⟩ none none) unsignedVerifier (ascii "t") 3
        ⟨(), (), SeqSet.new, []⟩).2.trace = [] ++ idleRounds (ascii "t") 3 :=
  ⟨fun _ _ => rfl, rfl,
    (WaitForMail_never_found (scriptedClient [] ⟨[], none⟩ none none) unsignedVerifier (ascii "t")
      (fun _ _ => rfl) 3 ⟨(), (), SeqSet.new, []⟩ rfl).1,
    (WaitForMail_never_found (scriptedClient [] ⟨[], none⟩ none none) unsignedVerifier (ascii "t")
      (fun _ _ => rfl) 3 ⟨(), (), SeqSet.new, []⟩ rfl).2.2.1⟩

/-- C3: the error of a failed cleanup does not reach the caller.  With a
session whose store (or whose expunge) fails with "NO", `delete` returns that
error, yet `WaitForMail` ends exactly as it does when the cleanup succeeds,
and so does the action of the `test` command, which returns nil. -/
theorem WaitForMail_drops_cleanup_error :
    (delete (cleanupClient (some "NO") none) ⟨[7]⟩
      (⟨(), (), ⟨[7]⟩, []⟩ : State Unit Unit)).1 = some "NO" ∧
    (delete (cleanupClient none (some "NO")) ⟨[7]⟩
      (⟨(), (), ⟨[7]⟩, []⟩ : State Unit Unit)).1 = some "NO" ∧
    (WaitForMail (cleanupClient none none) unsignedVerifier (ascii "t") 1
      ⟨(), (), SeqSet.new, []⟩).1 = .returned ∧
    (WaitForMail (cleanupClient (some "NO") none) unsignedVerifier (ascii "t") 1
      ⟨(), (), SeqSet.new, []⟩).1 = .returned ∧
    (WaitForMail (cleanupClient none (some "NO")) unsignedVerifier (ascii "t") 1
      ⟨(), (), SeqSet.new, []⟩).1 = .returned ∧
    (Action (scriptedWorld (cleanupClient none none)) unsignedVerifier () 1 verifyOnlyFlags).1 =
      .ok ∧
    (Action (scriptedWorld (cleanupClient (some "NO") none)) unsignedVerifier () 1
      verifyOnlyFlags).1 = .ok ∧
    (Action (scriptedWorld (cleanupClient none (some "NO"))) unsignedVerifier () 1
      verifyOnlyFlags).1 = .ok := by
  decide

end

/-! ### The message -/

/-- Carriage return and line feed are different bytes. -/
theorem CR_ne_LF : CR ≠ LF := by decide

/-- At the end of a string the last byte must not have been a carriage return. -/
theorem crlfFrom_nil (b : Bool) : CrlfFrom b [] ↔ b = false := by
  unfold CrlfFrom
  cases b <;> simp

/-- The property `CrlfFrom`, byte by byte. -/
theorem crlfFrom_cons (b : Bool) (c : Byte) (cs : GoString) :
    CrlfFrom b (c :: cs) ↔ (b = true ↔ c = LF) ∧ CrlfFrom (decide (c = CR)) cs := by
  unfold CrlfFrom
  constructor
  · rintro ⟨h1, h2, h3⟩
    refine ⟨⟨fun hb => by simpa using h1 hb, fun hc => ?_⟩, ?_, ?_, ?_⟩
    · rcases h2 0 (by simp [hc]) with ⟨_, hb⟩ | ⟨h0, _⟩
      · exact hb
      · exact absurd h0 (Nat.lt_irrefl 0)
    · intro hc
      have hc' : c = CR := by simpa using hc
      have := h3 0 (by simp [hc'])
      simpa [List.head?_eq_getElem?] using this
    · intro i hi
      rcases h2 (i + 1) (by simpa using hi) with ⟨h0, _⟩ | ⟨_, hp⟩
      · exact absurd h0 (Nat.succ_ne_zero i)
      · cases i with
        | zero =>
          left
          simp at hp
          exact ⟨rfl, by simpa using hp⟩
        | succ j =>
          right
          refine ⟨Nat.succ_pos j, ?_⟩
          simpa using hp
    · intro i hi
      have := h3 (i + 1) (by simpa using hi)
      simpa using this
  · rintro ⟨hb, h1, h2, h3⟩
    refine ⟨fun h => by simpa using hb.mp h, ?_, ?_⟩
    · intro i hi
      cases i with
      | zero =>
        left
        simp at hi
        exact ⟨rfl, hb.mpr hi⟩
      | succ j =>
        right
        refine ⟨Nat.succ_pos j, ?_⟩
        simp at hi
        rcases h2 j hi with ⟨h0, hc⟩ | ⟨hj, hp⟩
        · subst h0
          simpa using hc
        · obtain ⟨k, rfl⟩ : ∃ k, j = k + 1 := ⟨j - 1, by omega⟩
          simpa using hp
    · intro i hi
      cases i with
      | zero =>
        simp at hi
        have := h1 (by simpa using hi)
        simpa [List.head?_eq_getElem?] using this
      | succ j =>
        simp at hi
        simpa using h3 j hi

/-- The one-pass check decides `CrlfFrom`. -/
theorem crlfScan_iff (b : Bool) (s : GoString) : crlfScan b s = true ↔ CrlfFrom b s := by
  induction s generalizing b with
  | nil => rw [crlfFrom_nil]; cases b <;> simp [crlfScan]
  | cons c cs ih =>
    rw [crlfFrom_cons, ← ih]
    simp only [crlfScan, Bool.and_eq_true, beq_iff_eq]
    constructor
    · rintro ⟨h1, h2⟩
      refine ⟨?_, h2⟩
      rw [h1]
      simp
    · rintro ⟨h1, h2⟩
      refine ⟨?_, h2⟩
      cases b <;> simp_all

/-- The one-pass check decides `CRLFOnly`. -/
theorem crlfOnly_iff_scan (s : GoString) : CRLFOnly s ↔ crlfScan false s = true := by
  rw [crlfScan_iff]
  unfold CRLFOnly CrlfFrom
  simp

/-- The check across a carriage return. -/
theorem crlfScan_append_cr (b : Bool) (x y : GoString) :
    crlfScan b (x ++ CR :: y) = (crlfScan b x && crlfScan false (CR :: y)) := by
  induction x generalizing b with
  | nil => cases b <;> simp [crlfScan, CR_ne_LF]
  | cons c cs ih => simp [crlfScan, ih, Bool.and_assoc]

/-- The check across a CRLF. -/
theorem crlfScan_crlf (z : GoString) : crlfScan false (CR :: LF :: z) = crlfScan false z := by
  have h : LF ≠ CR := by decide
  simp [crlfScan, CR_ne_LF, h]

/-- The check across bytes that are neither carriage return nor line feed. -/
theorem crlfScan_clean (p z : GoString) (hp : ∀ c ∈ p, c ≠ CR ∧ c ≠ LF) :
    crlfScan false (p ++ z) = crlfScan false z := by
  induction p with
  | nil => rfl
  | cons c cs ih =>
    have hc := hp c (List.mem_cons_self c cs)
    simp [crlfScan, hc.1, hc.2, ih (fun x hx => hp x (List.mem_cons_of_mem c hx))]

/-- A text without carriage return has CRLF line endings after the
replacement of its line feeds. -/
theorem crlfScan_replaceNewlines (m : GoString) (hm : CR ∉ m) :
    crlfScan false (replaceNewlines m) = true := by
  induction m with
  | nil => rfl
  | cons c cs ih =>
    have hc : c ≠ CR := fun h => hm (h ▸ List.mem_cons_self c cs)
    have ih' := ih (fun h => hm (List.mem_cons_of_mem c h))
    unfold replaceNewlines
    by_cases hl : c = LF
    · simp only [hl, if_true]
      rw [crlfScan_crlf, ih']
    · simp [hl, crlfScan, hc, ih']

/-- A text without carriage return and without line feed has CRLF line
endings throughout. -/
theorem crlfOnly_of_clean (s : GoString) (hcr : CR ∉ s) (hlf : LF ∉ s) : CRLFOnly s := by
  rw [crlfOnly_iff_scan]
  have h := crlfScan_clean s [] (fun c hc => ⟨fun e => hcr (e ▸ hc), fun e => hlf (e ▸ hc)⟩)
  rw [List.append_nil] at h
  rw [h]
  rfl

/-- C8 (amended): when the trace ID, the recipient, the sender and the
subject each use CRLF line endings throughout (as they do when they contain
no carriage return and no line feed) and the body text contains no carriage
return byte, the bytes built by `newMessage` use CRLF line endings
throughout: every line feed byte is immediately preceded by a carriage return
byte and every carriage return byte is immediately followed by a line feed
byte. -/
theorem newMessage_crlf (id to_ from_ subject message : GoString)
    (hid : CRLFOnly id) (hto : CRLFOnly to_) (hfrom : CRLFOnly from_)
    (hsubject : CRLFOnly subject) (hmessage : CR ∉ message) :
    CRLFOnly (newMessage id to_ from_ subject message) := by
  rw [crlfOnly_iff_scan] at hid hto hfrom hsubject ⊢
  have e : ascii "\r\n" = [CR, LF] := by decide
  have c1 : ∀ c ∈ ascii "To: ", c ≠ CR ∧ c ≠ LF := by decide
  have c2 : ∀ c ∈ ascii "From: ", c ≠ CR ∧ c ≠ LF := by decide
  have c3 : ∀ c ∈ ascii "Subject: ", c ≠ CR ∧ c ≠ LF := by decide
  have c4 : ∀ c ∈ HeaderTrace ++ ascii ": ", c ≠ CR ∧ c ≠ LF := by decide
  unfold newMessage
  simp only [e, List.append_assoc, List.cons_append, List.nil_append]
  rw [crlfScan_clean _ _ c1, crlfScan_append_cr, hto, Bool.true_and, crlfScan_crlf,
    crlfScan_clean _ _ c2, crlfScan_append_cr, hfrom, Bool.true_and, crlfScan_crlf,
    crlfScan_clean _ _ c3, crlfScan_append_cr, hsubject, Bool.true_and, crlfScan_crlf,
    ← List.append_assoc HeaderTrace, crlfScan_clean _ _ c4, crlfScan_append_cr, hid,
    Bool.true_and, crlfScan_crlf, crlfScan_crlf]
  exact crlfScan_replaceNewlines message hmessage

/-- The theorem `newMessage_crlf` at a message with a two-line body and a
subject that holds a CRLF. -/
theorem newMessage_crlf_witness :
    CRLFOnly (ascii "t") ∧ CRLFOnly (ascii "a@b") ∧ CRLFOnly (ascii "c@d") ∧
    CRLFOnly (ascii "x\r\ny") ∧ CR ∉ ascii "l1\nl2" ∧
    CRLFOnly (newMessage (ascii "t") (ascii "a@b") (ascii "c@d") (ascii "x\r\ny") (ascii "l1\nl2")) :=
  ⟨(crlfOnly_iff_scan _).mpr (by decide), (crlfOnly_iff_scan _).mpr (by decide),
    (crlfOnly_iff_scan _).mpr (by decide), (crlfOnly_iff_scan _).mpr (by decide), by decide,
    newMessage_crlf _ _ _ _ _ ((crlfOnly_iff_scan _).mpr (by decide))
      ((crlfOnly_iff_scan _).mpr (by decide)) ((crlfOnly_iff_scan _).mpr (by decide))
      ((crlfOnly_iff_scan _).mpr (by decide)) (by decide)⟩

/-- C8 (counterexample): for the recipient "a\nb" the bytes built by
`newMessage` do not use CRLF line endings throughout: the line feed of the
recipient is copied as it is, with no carriage return before it. -/
theorem newMessage_not_crlf :
    ¬ CRLFOnly (newMessage (ascii "t") (ascii "a\nb") (ascii "c@d") (ascii "s") (ascii "m")) := by
  rw [crlfOnly_iff_scan]
  decide


/-- A pattern without the byte `c` cannot reach across an occurrence of `c`. -/
theorem prefix_append_sep (pat l ys : GoString) (c : Byte) (hc : c ∉ pat) :
    pat <+: l ++ c :: ys ↔ pat <+: l := by
  induction pat generalizing l with
  | nil => simp
  | cons p ps ih =>
    have hp : p ≠ c := fun h => hc (h ▸ List.mem_cons_self p ps)
    have hps : c ∉ ps := fun h => hc (List.mem_cons_of_mem p h)
    cases l with
    | nil => simp [List.cons_prefix_cons, hp]
    | cons x l' => simp [List.cons_prefix_cons, ih l' hps]

/-- Occurrences of a pattern without the byte `c` are counted on each side of
an occurrence of `c`. -/
theorem occurrences_sep (pat xs ys : GoString) (c : Byte) (hc : c ∉ pat) (hne : pat ≠ []) :
    occurrences pat (xs ++ c :: ys) = occurrences pat xs + occurrences pat ys := by
  induction xs with
  | nil =>
    have h : ¬ pat <+: c :: ys := by
      have := prefix_append_sep pat [] ys c hc
      simp only [List.nil_append] at this
      rw [this]
      simpa using hne
    simp [occurrences, h, hne]
  | cons x xs ih =>
    have h := prefix_append_sep pat (x :: xs) ys c hc
    simp only [List.cons_append] at h ⊢
    simp only [occurrences, h, ih]
    omega

/-- No occurrence is counted exactly when the pattern is not contained. -/
theorem occurrences_eq_zero_iff (pat s : GoString) :
    occurrences pat s = 0 ↔ ¬ pat <:+: s := by
  induction s with
  | nil => by_cases h : pat = [] <;> simp [occurrences, h]
  | cons c cs ih =>
    rw [List.infix_cons_iff]
    simp only [occurrences]
    by_cases h : pat <+: c :: cs
    · simp [h]
    · simp [h, ih]

/-- No index is found exactly when the pattern is not contained. -/
theorem bytesIndex_eq_none_iff (pat s : GoString) :
    bytesIndex pat s = none ↔ ¬ pat <:+: s := by
  induction s with
  | nil => by_cases h : pat = [] <;> simp [bytesIndex, h]
  | cons c cs ih =>
    rw [List.infix_cons_iff]
    simp only [bytesIndex]
    by_cases h : pat <+: c :: cs
    · simp [h]
    · simp [h, ih]

/-- An occurrence of a pattern lies behind a text without its first byte. -/
theorem infix_skip (p : Byte) (ps pre z : GoString) (hp : p ∉ pre)
    (h : p :: ps <:+: pre ++ z) : p :: ps <:+: z := by
  induction pre with
  | nil => simpa using h
  | cons x pre ih =>
    rw [List.cons_append, List.infix_cons_iff] at h
    rcases h with h | h
    · rw [List.cons_prefix_cons] at h
      exact absurd (h.1 ▸ List.mem_cons_self p pre) hp
    · exact ih (fun hx => hp (List.mem_cons_of_mem x hx)) h

/-- A pattern without carriage return at the start of the replaced text is
at the start of the text. -/
theorem prefix_replaceNewlines (pat m : GoString) (hc : CR ∉ pat)
    (h : pat <+: replaceNewlines m) : pat <+: m := by
  induction pat generalizing m with
  | nil => simp
  | cons p ps ih =>
    have hp : p ≠ CR := fun e => hc (e ▸ List.mem_cons_self p ps)
    have hps : CR ∉ ps := fun e => hc (List.mem_cons_of_mem p e)
    cases m with
    | nil => simp [replaceNewlines] at h
    | cons x xs =>
      unfold replaceNewlines at h
      by_cases hx : x = LF
      · simp only [hx, if_true, List.cons_prefix_cons] at h
        exact absurd h.1 hp
      · simp only [hx, if_false, List.cons_prefix_cons] at h
        rw [List.cons_prefix_cons]
        exact ⟨h.1, ih xs hps h.2⟩

/-- A pattern without carriage return contained in the replaced text is
contained in the text. -/
theorem infix_replaceNewlines (pat m : GoString) (hc : CR ∉ pat) (hne : pat ≠ [])
    (h : pat <:+: replaceNewlines m) : pat <:+: m := by
  induction m with
  | nil => simpa [replaceNewlines] using h
  | cons x xs ih =>
    unfold replaceNewlines at h
    by_cases hx : x = LF
    · simp only [hx, if_true] at h
      rw [List.infix_cons_iff] at h
      rcases h with h | h
      · obtain ⟨p, ps, rfl⟩ := List.exists_cons_of_ne_nil hne
        rw [List.cons_prefix_cons] at h
        exact absurd (h.1 ▸ List.mem_cons_self p ps) hc
      · rw [List.infix_cons_iff] at h
        rcases h with h | h
        · obtain ⟨p, ps, rfl⟩ := List.exists_cons_of_ne_nil hne
          rw [List.cons_prefix_cons] at h
          have hps : CR ∉ ps := fun e => hc (List.mem_cons_of_mem p e)
          refine List.infix_cons_iff.mpr (Or.inl ?_)
          rw [List.cons_prefix_cons]
          exact ⟨h.1.trans hx.symm, prefix_replaceNewlines ps xs hps h.2⟩
        · exact List.infix_cons_iff.mpr (Or.inr (ih h))
    · simp only [hx, if_false] at h
      rw [List.infix_cons_iff] at h ⊢
      rcases h with h | h
      · left
        have h' : pat <+: replaceNewlines (x :: xs) := by
          unfold replaceNewlines
          simpa only [hx, if_false] using h
        exact prefix_replaceNewlines pat (x :: xs) hc h'
      · exact Or.inr (ih h)

/-- A pattern occurs once in itself. -/
theorem occurrences_self (pat : GoString) (hne : pat ≠ []) : occurrences pat pat = 1 := by
  obtain ⟨p, ps, rfl⟩ := List.exists_cons_of_ne_nil hne
  have h0 : occurrences (p :: ps) ps = 0 := by
    rw [occurrences_eq_zero_iff]
    intro h
    have := h.length_le
    simp at this
  simp [occurrences, h0]

/-- No occurrence starts at a byte other than the first of the pattern. -/
theorem occurrences_cons_of_ne (p c : Byte) (ps s : GoString) (h : p ≠ c) :
    occurrences (p :: ps) (c :: s) = occurrences (p :: ps) s := by
  simp [occurrences, List.cons_prefix_cons, h]

/-- The index behind a byte other than the first of the pattern. -/
theorem bytesIndex_cons_of_ne (p c : Byte) (ps s : GoString) (h : p ≠ c) :
    bytesIndex (p :: ps) (c :: s) = (bytesIndex (p :: ps) s).map (· + 1) := by
  simp [bytesIndex, List.cons_prefix_cons, h]

/-- A pattern is found at the start of what begins with it. -/
theorem bytesIndex_self_append (pat z : GoString) (hne : pat ≠ []) :
    bytesIndex pat (pat ++ z) = some 0 := by
  obtain ⟨p, ps, rfl⟩ := List.exists_cons_of_ne_nil hne
  simp [bytesIndex]

/-- The index behind a text that does not contain the pattern and an
occurrence of a byte the pattern does not have. -/
theorem bytesIndex_sep_none (pat xs ys : GoString) (c : Byte) (hc : c ∉ pat) (hne : pat ≠ [])
    (hx : ¬ pat <:+: xs) :
    bytesIndex pat (xs ++ c :: ys) = (bytesIndex pat ys).map (· + (xs.length + 1)) := by
  induction xs with
  | nil =>
    obtain ⟨p, ps, rfl⟩ := List.exists_cons_of_ne_nil hne
    have hp : p ≠ c := fun e => hc (e ▸ List.mem_cons_self p ps)
    simp [bytesIndex_cons_of_ne p c ps ys hp]
  | cons x xs ih =>
    rw [List.infix_cons_iff, not_or] at hx
    have h := prefix_append_sep pat (x :: xs) ys c hc
    simp only [List.cons_append] at h ⊢
    simp only [bytesIndex, h, hx.1, if_false, ih hx.2, Option.map_map]
    congr 1

/-- The index behind a text without the first byte of the pattern. -/
theorem bytesIndex_skip (h : Byte) (q pre z : GoString) (hpre : ∀ c ∈ pre, c ≠ h) :
    bytesIndex (h :: q) (pre ++ z) = (bytesIndex (h :: q) z).map (· + pre.length) := by
  induction pre with
  | nil => simp
  | cons x pre ih =>
    have hx : h ≠ x := fun e => hpre x (List.mem_cons_self x pre) e.symm
    rw [List.cons_append, bytesIndex_cons_of_ne h x q _ hx,
      ih (fun c hc => hpre c (List.mem_cons_of_mem x hc)), Option.map_map]
    congr 1

/-- The index of the blank line behind a CRLF and a non-empty line without
carriage return. -/
theorem bytesIndex_blank_step (p z : GoString) (hne : p ≠ []) (hp : ∀ c ∈ p, c ≠ CR) :
    bytesIndex (CRLF ++ CRLF) (CR :: LF :: (p ++ z)) =
      (bytesIndex (CRLF ++ CRLF) z).map (· + (p.length + 2)) := by
  obtain ⟨x, p', rfl⟩ := List.exists_cons_of_ne_nil hne
  have hx : x ≠ CR := hp x (List.mem_cons_self x p')
  have hx' : CR ≠ x := fun e => hx e.symm
  have e : CRLF ++ CRLF = CR :: [LF, CR, LF] := rfl
  have h1 : bytesIndex (CR :: [LF, CR, LF]) (CR :: LF :: (x :: p' ++ z)) =
      (bytesIndex (CR :: [LF, CR, LF]) (x :: p' ++ z)).map (· + 2) := by
    have a : ¬ (CR :: [LF, CR, LF]) <+: CR :: LF :: (x :: p' ++ z) := by
      simp [List.cons_prefix_cons, hx']
    have b : ¬ (CR :: [LF, CR, LF]) <+: LF :: (x :: p' ++ z) := by
      simp [List.cons_prefix_cons, CR_ne_LF]
    rw [bytesIndex]
    simp only [a, if_false]
    rw [bytesIndex]
    simp only [b, if_false, Option.map_map]
    congr 1
  rw [e, h1, bytesIndex_skip CR [LF, CR, LF] (x :: p') z (fun c hc => hp c hc), Option.map_map]
  congr 1

/-- Two texts without carriage return in a row. -/
theorem no_cr_append (p x : GoString) (hp : CR ∉ p) (hx : CR ∉ x) : ∀ c ∈ p ++ x, c ≠ CR := by
  intro c hc e
  rw [e, List.mem_append] at hc
  exact hc.elim hp hx

/-- The message, line by line. -/
theorem newMessage_shape (id to_ from_ subject message : GoString) :
    newMessage id to_ from_ subject message =
      (ascii "To: " ++ to_) ++ CR :: LF :: ((ascii "From: " ++ from_) ++ CR :: LF ::
        ((ascii "Subject: " ++ subject) ++ CR :: LF :: (traceHeaderLine id ++ CR :: LF ::
          CR :: LF :: replaceNewlines message))) := by
  have e : ascii "\r\n" = [CR, LF] := by decide
  simp [newMessage, traceHeaderLine, e]

/-- The trace header line begins with the byte of the letter X. -/
theorem traceHeaderLine_cons (id : GoString) :
    traceHeaderLine id = 88 :: (ascii "-MailMon-Trace-ID: " ++ id) := by
  have e : HeaderTrace ++ ascii ": " = 88 :: ascii "-MailMon-Trace-ID: " := by decide
  unfold traceHeaderLine
  rw [e]
  rfl

/-- C7 (amended): when the trace ID, the recipient, the sender and the
subject contain no carriage return byte, and the text
"X-MailMon-Trace-ID: <id>" occurs neither in the recipient, the sender, the
subject nor the body text, the bytes built by `newMessage` contain that text
exactly once, right after the To, From and Subject lines, and the first blank
line (CRLF CRLF) of the message begins exactly where that occurrence ends: the
occurrence lies in the header block before the first blank line. -/
theorem newMessage_trace_header (id to_ from_ subject message : GoString)
    (hid : CR ∉ id) (hto : CR ∉ to_) (hfrom : CR ∉ from_) (hsubject : CR ∉ subject)
    (oto : ¬ traceHeaderLine id <:+: to_) (ofrom : ¬ traceHeaderLine id <:+: from_)
    (osubject : ¬ traceHeaderLine id <:+: subject)
    (omessage : ¬ traceHeaderLine id <:+: message) :
    occurrences (traceHeaderLine id) (newMessage id to_ from_ subject message) = 1 ∧
    bytesIndex (traceHeaderLine id) (newMessage id to_ from_ subject message) =
      some (traceHeaderOffset to_ from_ subject) ∧
    bytesIndex (CRLF ++ CRLF) (newMessage id to_ from_ subject message) =
      some (traceHeaderOffset to_ from_ subject + (traceHeaderLine id).length) := by
  have hP := traceHeaderLine_cons id
  have hne : traceHeaderLine id ≠ [] := by rw [hP]; exact List.cons_ne_nil _ _
  have hc : CR ∉ traceHeaderLine id := by
    have : CR ∉ HeaderTrace ++ ascii ": " := by decide
    unfold traceHeaderLine
    simp only [List.mem_append, not_or] at this ⊢
    exact ⟨this, hid⟩
  -- no occurrence in the other lines
  have z1 : ¬ traceHeaderLine id <:+: ascii "To: " ++ to_ := by
    rw [hP] at oto ⊢
    exact fun h => oto (infix_skip _ _ _ _ (by decide) h)
  have z2 : ¬ traceHeaderLine id <:+: LF :: (ascii "From: " ++ from_) := by
    rw [hP] at ofrom ⊢
    exact fun h => ofrom (infix_skip _ _ (LF :: ascii "From: ") _ (by decide) h)
  have z3 : ¬ traceHeaderLine id <:+: LF :: (ascii "Subject: " ++ subject) := by
    rw [hP] at osubject ⊢
    exact fun h => osubject (infix_skip _ _ (LF :: ascii "Subject: ") _ (by decide) h)
  have z5 : ¬ traceHeaderLine id <:+: [LF] := by
    intro h
    rw [hP] at h
    have h' := infix_skip _ _ [LF] [] (by decide) h
    simp at h'
  have z6 : ¬ traceHeaderLine id <:+: LF :: replaceNewlines message := by
    intro h
    apply omessage
    apply infix_replaceNewlines _ _ hc hne
    rw [hP] at h ⊢
    exact infix_skip _ _ [LF] _ (by decide) h
  have hXL : (88 : Byte) ≠ LF := by decide
  have z4 : occurrences (traceHeaderLine id) (LF :: traceHeaderLine id) = 1 := by
    rw [← occurrences_self _ hne]
    nth_rewrite 1 [hP]
    exact occurrences_cons_of_ne _ _ _ _ hXL
  have shapeA : newMessage id to_ from_ subject message =
      (ascii "To: " ++ to_) ++ CR :: ((LF :: (ascii "From: " ++ from_)) ++ CR ::
        ((LF :: (ascii "Subject: " ++ subject)) ++ CR :: ((LF :: traceHeaderLine id) ++ CR ::
          ([LF] ++ CR :: (LF :: replaceNewlines message))))) := by
    rw [newMessage_shape]
    simp
  refine ⟨?_, ?_, ?_⟩
  · rw [shapeA, occurrences_sep _ _ _ _ hc hne, occurrences_sep _ _ _ _ hc hne,
      occurrences_sep _ _ _ _ hc hne, occurrences_sep _ _ _ _ hc hne,
      occurrences_sep _ _ _ _ hc hne, (occurrences_eq_zero_iff _ _).mpr z1,
      (occurrences_eq_zero_iff _ _).mpr z2, (occurrences_eq_zero_iff _ _).mpr z3,
      (occurrences_eq_zero_iff _ _).mpr z5, (occurrences_eq_zero_iff _ _).mpr z6, z4]
  · have i4 : bytesIndex (traceHeaderLine id)
        ((LF :: traceHeaderLine id) ++ CR :: ([LF] ++ CR :: (LF :: replaceNewlines message))) =
        some 1 := by
      rw [List.cons_append]
      nth_rewrite 1 [hP]
      rw [bytesIndex_cons_of_ne _ _ _ _ hXL, ← hP, bytesIndex_self_append _ _ hne]
      rfl
    rw [shapeA, bytesIndex_sep_none _ _ _ _ hc hne z1, bytesIndex_sep_none _ _ _ _ hc hne z2,
      bytesIndex_sep_none _ _ _ _ hc hne z3, i4]
    have e : ascii "\r\n" = [CR, LF] := by decide
    simp only [Option.map_some', traceHeaderOffset, e, List.length_append, List.length_cons,
      List.length_nil, Option.some.injEq]
    generalize (ascii "To: ").length = a
    generalize (ascii "From: ").length = b
    generalize (ascii "Subject: ").length = c
    omega
  · have hT := no_cr_append (ascii "To: ") to_ (by decide) hto
    have hF := no_cr_append (ascii "From: ") from_ (by decide) hfrom
    have hS := no_cr_append (ascii "Subject: ") subject (by decide) hsubject
    have hL : ∀ c ∈ traceHeaderLine id, c ≠ CR := fun c h e => hc (e ▸ h)
    have nF : ascii "From: " ++ from_ ≠ [] := by
      have : ascii "From: " ≠ [] := by decide
      simp [this]
    have nS : ascii "Subject: " ++ subject ≠ [] := by
      have : ascii "Subject: " ≠ [] := by decide
      simp [this]
    have last : bytesIndex (CRLF ++ CRLF) (CR :: LF :: CR :: LF :: replaceNewlines message) =
        some 0 := bytesIndex_self_append (CRLF ++ CRLF) (replaceNewlines message) (by decide)
    have e2 : CRLF ++ CRLF = CR :: [LF, CR, LF] := rfl
    have skip := bytesIndex_skip CR [LF, CR, LF] _
      (CR :: LF :: (ascii "From: " ++ from_ ++ CR :: LF :: (ascii "Subject: " ++ subject ++
        CR :: LF :: (traceHeaderLine id ++ CR :: LF :: CR :: LF :: replaceNewlines message)))) hT
    rw [← e2] at skip
    rw [newMessage_shape, skip, bytesIndex_blank_step _ _ nF hF, bytesIndex_blank_step _ _ nS hS,
      bytesIndex_blank_step _ _ hne hL, last]
    have e : ascii "\r\n" = [CR, LF] := by decide
    simp only [Option.map_some', traceHeaderOffset, e, List.length_append, List.length_cons,
      List.length_nil, Option.some.injEq]
    generalize (ascii "To: ").length = a
    generalize (ascii "From: ").length = b
    generalize (ascii "Subject: ").length = c
    omega

/-- The theorem `newMessage_trace_header` at a message with a two-line
body. -/
theorem newMessage_trace_header_witness :
    CR ∉ ascii "t" ∧ CR ∉ ascii "a@b" ∧ CR ∉ ascii "c@d" ∧ CR ∉ ascii "s" ∧
    ¬ traceHeaderLine (ascii "t") <:+: ascii "a@b" ∧
    ¬ traceHeaderLine (ascii "t") <:+: ascii "c@d" ∧
    ¬ traceHeaderLine (ascii "t") <:+: ascii "s" ∧
    ¬ traceHeaderLine (ascii "t") <:+: ascii "l1\nl2" ∧
    occurrences (traceHeaderLine (ascii "t"))
      (newMessage (ascii "t") (ascii "a@b") (ascii "c@d") (ascii "s") (ascii "l1\nl2")) = 1 :=
  ⟨by decide, by decide, by decide, by decide, by decide, by decide, by decide, by decide,
    (newMessage_trace_header (ascii "t") (ascii "a@b") (ascii "c@d") (ascii "s") (ascii "l1\nl2")
      (by decide) (by decide) (by decide) (by decide) (by decide) (by decide) (by decide)
      (by decide)).1⟩

/-- C7 (counterexample): with the body text "X-MailMon-Trace-ID: t\n", and
likewise with the recipient "x\r\nX-MailMon-Trace-ID: t", the bytes built by
`newMessage` for the trace ID "t" contain the trace header line twice, not
once. -/
theorem newMessage_trace_header_twice :
    occurrences (traceHeaderLine (ascii "t"))
      (newMessage (ascii "t") (ascii "a@b") (ascii "c@d") (ascii "s")
        (ascii "X-MailMon-Trace-ID: t\n")) = 2 ∧
    occurrences (traceHeaderLine (ascii "t"))
      (newMessage (ascii "t") (ascii "x\r\nX-MailMon-Trace-ID: t") (ascii "c@d") (ascii "s")
        (ascii "m")) = 2 := by
  decide

end Mailmon
